import Mathlib

/-!
# Verification of `DistRDF/CppWorkflow.py`

A shallow embedding of the `CppWorkflow` module of DistRDF: the translation of
a DistRDF computation-graph into C++ source text, the process-wide compilation
cache, and the execution/reconciliation pass that assembles the final ordered
result list.

Conventions of the embedding:
* Python objects are immutable Lean values; in-place mutation is modelled by
  explicitly returning the post-call value of the mutated object (so
  `_create_lazy_op_if_needed` returns both the state of the *original*
  descriptor after the call and the descriptor handed to the translator).
* Fallible Python code (uncaught `IndexError` / `AttributeError` /
  `StopIteration` / `RuntimeError`) is modelled with `Except String`.
* Machine integers that appear (node ids, range ids, workflow ids) are used as
  counters and dictionary keys only and cannot overflow in any modelled
  behaviour, so they are embedded as `Nat`.
-/

namespace CppWorkflow

deriving instance DecidableEq for Except

/-! ## Python value model

Modelled from the spec: the Operation Descriptor data model ("a name,
positional arguments, keyword options"; values "may be strings, numeric
literals, or fixed-size tuples of such") comes from `DistRDF.Operation`,
which is outside the studied source file. -/

/-- A scalar Python value as it may appear among operation arguments:
a string, an integer, or a boolean (booleans appear as the value of the
`lazy` keyword option). -/
inductive PyScalar where
  | str (s : String)
  | int (n : Int)
  | bool (b : Bool)
deriving DecidableEq, Repr

/-- A Python value appearing as one positional argument of an operation:
a scalar or a tuple of scalars. -/
inductive PyVal where
  | scalar (v : PyScalar)
  | tup (elems : List PyScalar)
deriving DecidableEq, Repr

/-- Decimal rendering of a single digit, as Python's `str` produces it. -/
def digitToChar : Nat → Char
  | 0 => '0'
  | 1 => '1'
  | 2 => '2'
  | 3 => '3'
  | 4 => '4'
  | 5 => '5'
  | 6 => '6'
  | 7 => '7'
  | 8 => '8'
  | 9 => '9'
  | _ => '*'

/-- Fuel-driven accumulator loop producing the decimal digits of `n` in front
of `acc` (the algorithm of Python's `str` on a nonnegative `int`). -/
def natChars : Nat → Nat → List Char → List Char
  | 0, _, acc => acc
  | fuel + 1, n, acc =>
    let c := digitToChar (n % 10)
    if n / 10 = 0 then c :: acc else natChars fuel (n / 10) (c :: acc)

/-- Python's `str` of a nonnegative integer: its decimal representation. -/
def pyStrOfNat (n : Nat) : String :=
  String.mk (natChars (n + 1) n [])

/-- Python's `str` / `'{}'.format` applied to one scalar value. -/
def formatPyScalar : PyScalar → String
  | .str s => s
  | .int n => if n < 0 then "-" ++ pyStrOfNat n.natAbs else pyStrOfNat n.natAbs
  | .bool b => if b then "True" else "False"

/-- Python dictionary assignment `d[k] = v` on an insertion-ordered
string-keyed mapping: replace the value in place if the key is present,
otherwise append the new binding. -/
def dictSet (d : List (String × PyVal)) (k : String) (v : PyVal) :
    List (String × PyVal) :=
  if d.any (fun p => p.1 = k) then
    d.map (fun p => if p.1 = k then (k, v) else p)
  else
    d ++ [(k, v)]

/-! ## Operations and graph nodes

Modelled from the spec: the classes `Operation`, `Action`, `Snapshot`,
`AsNumpy` of `DistRDF.Operation` and the class `Node` of `DistRDF.Node` are
outside the studied source file.  The spec's data model gives an operation a
kind tag (`Generic`, `TerminalAction`, `Snapshot`, `NonNativeAction`), a name,
positional args and keyword options, and gives a node its operation and its
parent id. -/

/-- The dispatch class of an operation: `generic` covers every operation type
that is none of `Action`, `Snapshot`, `AsNumpy` (e.g. transformations). -/
inductive OpKind where
  | generic
  | action
  | snapshot
  | asNumpy
deriving DecidableEq, Repr

/-- An operation descriptor: dispatch kind, call name, positional arguments,
keyword options. -/
structure Operation where
  kind : OpKind
  name : String
  args : List PyVal
  kwargs : List (String × PyVal)
deriving DecidableEq, Repr

/-- A graph node: its operation and the id of its parent node. -/
structure Node where
  operation : Operation
  parent_id : Nat
deriving DecidableEq, Repr

/-- `graph_nodes` is an insertion-ordered dictionary `{id -> Node}`; we embed
its `items()` view: the ordered list of `(id, node)` pairs, head node first. -/
abbrev Graph := List (Nat × Node)

/-! ## The graph materializer `_create_lazy_op_if_needed` -/

/-- The characters before the first occurrence of `sep` (all of them when
`sep` does not occur): the scan of Python's `str.partition`. -/
def charsBefore (sep : List Char) : List Char → List Char
  | [] => []
  | c :: rest =>
      if List.isPrefixOf sep (c :: rest) then [] else c :: charsBefore sep rest

/-- Python's `str.partition(sep)[0]`: the part of the string before the first
occurrence of `sep` (the whole string when `sep` does not occur). -/
def pyPartitionBefore (s sep : String) : String :=
  String.mk (charsBefore sep.data s.data)

/-- Sets the `lazy` keyword option of an operation to `True`
(`operation.kwargs["lazy"] = True`). -/
def opSetLazy (op : Operation) : Operation :=
  { op with kwargs := dictSet op.kwargs "lazy" (.scalar (.bool true)) }

/-- `_create_lazy_op_if_needed(operation, range_id)`.

Python mutates objects in place, so the embedding returns a pair
`(original', materialized)`: `original'` is the state of the descriptor the
caller passed in *after* the call, `materialized` is the returned descriptor.
* default overload: the operation is returned unchanged;
* `AsNumpy` overload: `operation.kwargs["lazy"] = True` mutates the original
  in place and returns the same object, so both components are the updated
  descriptor;
* `Snapshot` overload: works on `deepcopy(operation)` (the original is left
  untouched), rewrites `args[1]` to carry the range id before the `.root`
  extension, pads a missing column-selector with `""` and places the
  `"lazy_options"` sentinel as fourth argument (replacing an existing one,
  appending otherwise).  A missing `args[1]` raises `IndexError`; a
  non-string `args[1]` raises `AttributeError` (no `partition` attribute). -/
def _create_lazy_op_if_needed (op : Operation) (range_id : Nat) :
    Except String (Operation × Operation) :=
  match op.kind with
  | .asNumpy =>
      let op' := opSetLazy op
      .ok (op', op')
  | .snapshot =>
      match (op.args[1]? : Option PyVal) with
      | some (.scalar (.str fname)) =>
          let filename := pyPartitionBefore fname ".root"
          let path_with_range := filename ++ "_" ++ pyStrOfNat range_id ++ ".root"
          let args1 := op.args.set 1 (.scalar (.str path_with_range))
          let args2 := if args1.length = 2 then args1 ++ [.scalar (.str "")] else args1
          let args3 :=
            if args2.length = 4 then args2.set 3 (.scalar (.str "lazy_options"))
            else args2 ++ [.scalar (.str "lazy_options")]
          .ok (op, { op with args := args3 })
      | some _ => .error "AttributeError: object has no attribute partition"
      | none => .error "IndexError: list index out of range"
  | _ => .ok (op, op)

/-! ## Argument rendering `_get_args_call` / `_get_args_template` -/

/-- Rendering of one element of a tuple argument: strings are quoted, any
other element is rendered with `'{}'.format(elem)`. -/
def renderTupElem : PyScalar → String
  | .str s => "\"" ++ s ++ "\""
  | e => formatPyScalar e

/-- The inner loop of `_get_args_call` over the elements of a tuple argument:
elements separated by `,`. -/
def renderTuple (elems : List PyScalar) : String :=
  (elems.foldl
    (fun (acc : String × Nat) e =>
      (acc.1 ++ (if acc.2 > 0 then "," else "") ++ renderTupElem e, acc.2 + 1))
    ("", 0)).1

/-- Rendering of one positional argument inside `_get_args_call`: the
sentinel string `"lazy_options"` renders as the bare identifier, any other
string renders quoted, a tuple renders as a brace-initialized list; any
other value falls through every `elif` and contributes nothing. -/
def renderArg : PyVal → String
  | .scalar (.str s) =>
      if s = "lazy_options" then "lazy_options" else "\"" ++ s ++ "\""
  | .scalar _ => ""
  | .tup elems => "\x7b" ++ renderTuple elems ++ "\x7d"

/-- `CppWorkflow._get_args_call`: renders the positional arguments of an
operation into the argument list of the generated C++ call, separating
consecutive arguments with `", "`. -/
def _get_args_call (args : List PyVal) : String :=
  (args.foldl
    (fun (acc : String × Nat) arg =>
      (acc.1 ++ (if acc.2 > 0 then ", " else "") ++ renderArg arg, acc.2 + 1))
    ("", 0)).1

/-- `CppWorkflow._get_args_template`: the translator currently passes no
template arguments. -/
def _get_args_template (_op : Operation) : String := ""

/-! ## The generated statements

`_nodes_code` is a plain Python string built by appending one fragment per
handler step.  The embedding keeps the list of appended fragments in
structured form (`CppStmt`) together with the exact text each fragment
renders to (`renderStmt`); the Python attribute `_nodes_code` is the
concatenation `renderStmts` of the list. -/

/-- One fragment appended to `_nodes_code` by a handler. -/
inductive CppStmt where
  /-- `\n  auto node<n> = node<p>.<name><tmpl>(<args>);` emitted by
  `_handle_op` for every native node. -/
  | defineNode (n p : Nat) (name tmpl args : String)
  /-- `\n  result_handles.emplace_back(node<n>);` emitted by `_handle_action`. -/
  | emplaceHandle (n : Nat)
  /-- The four-line `TClass::GetClass` block of `_handle_action` that records
  the result type of node `n` (or throws at run time). -/
  | typeBlock (n : Nat) (opName : String)
  /-- `\n  output_nodes.push_back(ROOT::RDF::AsRNode(node<p>));` emitted by
  `_handle_asnumpy` for the *parent* node. -/
  | pushOutputNode (p : Nat)
  /-- The pair of empty `emplace_back()` placeholder lines emitted by
  `_handle_asnumpy` to keep the result lists aligned. -/
  | placeholders
deriving DecidableEq, Repr

/-- The exact text of one fragment, byte-for-byte as the Python f-strings
produce it. -/
def renderStmt : CppStmt → String
  | .defineNode n p name tmpl args =>
      "\n  auto node" ++ pyStrOfNat n ++ " = node" ++ pyStrOfNat p ++ "." ++
        name ++ tmpl ++ "(" ++ args ++ ");"
  | .emplaceHandle n =>
      "\n  result_handles.emplace_back(node" ++ pyStrOfNat n ++ ");"
  | .typeBlock n opName =>
      "\n  auto c" ++ pyStrOfNat n ++ " = TClass::GetClass(typeid(node" ++
        pyStrOfNat n ++ "));" ++
      "\n  if (c" ++ pyStrOfNat n ++ " == nullptr)" ++
      "\n    throw std::runtime_error(\"Cannot get type of result " ++
        pyStrOfNat n ++ " of action " ++ opName ++
        " during generation of RDF C++ workflow\");" ++
      "\n  result_types.emplace_back(c" ++ pyStrOfNat n ++ "->GetName());"
  | .pushOutputNode p =>
      "\n  output_nodes.push_back(ROOT::RDF::AsRNode(node" ++ pyStrOfNat p ++ "));"
  | .placeholders =>
      "\n  result_handles.emplace_back();" ++ "\n  result_types.emplace_back();"

/-- The value of the `_nodes_code` attribute: concatenation of all appended
fragments. -/
def renderStmts (stmts : List CppStmt) : String :=
  String.join (stmts.map renderStmt)

/-! ## Translation state and the handlers -/

/-- The mutable per-instance attributes of a `CppWorkflow` object that the
graph walk writes: `_lambdas`, `_nodes_code`, `_res_ptr_id`, `_snapshots`
(list of `_SnapshotData(res_id, treename, filename)` tuples) and
`_py_actions` (list of `_PyActionData(res_id, operation)` tuples). -/
structure TransState where
  lambdas : String
  nodesCode : List CppStmt
  resPtrId : Nat
  snapshots : List (Nat × PyVal × PyVal)
  pyActions : List (Nat × Operation)
deriving DecidableEq, Repr

/-- The state of a fresh `CppWorkflow` before `_generate_computation_graph`. -/
def initState : TransState :=
  { lambdas := "", nodesCode := [], resPtrId := 0, snapshots := [], pyActions := [] }

/-- `CppWorkflow._handle_op` (the generic, undispatched body): appends the
single `auto node<n> = node<p>.<name><tmpl>(<args>);` statement. -/
def _handle_op_generic (st : TransState) (op : Operation) (node_id parent_id : Nat) :
    TransState :=
  { st with
      nodesCode := st.nodesCode ++
        [.defineNode node_id parent_id op.name (_get_args_template op)
          (_get_args_call op.args)] }

/-- `CppWorkflow._handle_action`: generic statement, then the
result-handle `emplace_back` and the `TClass` type block, then
`_res_ptr_id += 1`. -/
def _handle_action (st : TransState) (op : Operation) (node_id parent_id : Nat) :
    TransState :=
  let st := _handle_op_generic st op node_id parent_id
  { st with
      nodesCode := st.nodesCode ++ [.emplaceHandle node_id, .typeBlock node_id op.name],
      resPtrId := st.resPtrId + 1 }

/-- `CppWorkflow._handle_asnumpy`: records `(_res_ptr_id, operation)` in
`_py_actions`, pushes the *parent* node into `output_nodes`, appends the two
placeholder `emplace_back()` lines, then `_res_ptr_id += 1`. -/
def _handle_asnumpy (st : TransState) (op : Operation) (_node_id parent_id : Nat) :
    TransState :=
  { st with
      pyActions := st.pyActions ++ [(st.resPtrId, op)],
      nodesCode := st.nodesCode ++ [.pushOutputNode parent_id, .placeholders],
      resPtrId := st.resPtrId + 1 }

/-- `CppWorkflow._handle_snapshot`: records
`_SnapshotData(_res_ptr_id, operation.args[0], operation.args[1])`, then
delegates to `_handle_action`.  Reading a missing argument raises
`IndexError`. -/
def _handle_snapshot (st : TransState) (op : Operation) (node_id parent_id : Nat) :
    Except String TransState :=
  match (op.args[0]? : Option PyVal), (op.args[1]? : Option PyVal) with
  | some a0, some a1 =>
      .ok (_handle_action
        { st with snapshots := st.snapshots ++ [(st.resPtrId, a0, a1)] }
        op node_id parent_id)
  | _, _ => .error "IndexError: list index out of range"

/-- The `singledispatch` table built in `CppWorkflow.__init__`: `Action` goes
to `_handle_action`, `Snapshot` to `_handle_snapshot`, `AsNumpy` to
`_handle_asnumpy`, and every other operation type to the generic
`_handle_op` body. -/
def _handle_op (st : TransState) (op : Operation) (node_id parent_id : Nat) :
    Except String TransState :=
  match op.kind with
  | .action => .ok (_handle_action st op node_id parent_id)
  | .snapshot => _handle_snapshot st op node_id parent_id
  | .asNumpy => .ok (_handle_asnumpy st op node_id parent_id)
  | .generic => .ok (_handle_op_generic st op node_id parent_id)

/-- `CppWorkflow._add_node`: materializes the operation with
`_create_lazy_op_if_needed` and dispatches on the result.  Returns the new
state together with the post-call state of the node's original operation
object (which `AsNumpy` materialization mutates in place). -/
def _add_node (st : TransState) (range_id : Nat) (op : Operation)
    (node_id parent_id : Nat) : Except String (TransState × Operation) := do
  let (orig, materialized) ← _create_lazy_op_if_needed op range_id
  let st' ← _handle_op st materialized node_id parent_id
  return (st', orig)

/-- The loop of `_generate_computation_graph` over the non-head nodes, in
dictionary insertion order.  Also returns the graph as it stands after the
walk (each node's operation object in its possibly mutated state). -/
def translateNodes (range_id : Nat) :
    List (Nat × Node) → TransState → Except String (TransState × List (Nat × Node))
  | [], st => .ok (st, [])
  | (node_id, node) :: rest, st => do
      let (st', op') ← _add_node st range_id node.operation node_id node.parent_id
      let (stF, rest') ← translateNodes range_id rest st'
      return (stF, (node_id, { node with operation := op' }) :: rest')

/-- `CppWorkflow._generate_computation_graph`: skips the head node
(`next(nodes)`, raising `StopIteration` on an empty dictionary) and walks the
remaining nodes in insertion order. -/
def _generate_computation_graph (range_id : Nat) (graph : Graph) :
    Except String (TransState × Graph) :=
  match graph with
  | [] => .error "StopIteration"
  | head :: rest => do
      let (st, rest') ← translateNodes range_id rest initState
      return (st, head :: rest')

/-! ## The full application code -/

/-- The `_includes` attribute (after `dedent`). -/
def includesCode : String :=
  "\n#include <tuple>\n#include <utility>\n#include <vector>\n" ++
  "#include \"ROOT/RDataFrame.hxx\"\n#include \"ROOT/RDFHelpers.hxx\"\n" ++
  "#include \"ROOT/RResultHandle.hxx\"\n"

/-- `CppWorkflow._FUNCTION_NAME`. -/
def _FUNCTION_NAME : String := "__RDF_WORKFLOW_FUNCTION__"

/-- `CppWorkflow._FUNCTION_NAMESPACE`. -/
def _FUNCTION_NAMESPACE : String := "DistRDF_Internal"

/-- `CppWorkflow._get_code`: the full C++ translation unit wrapping the node
statements (the template string of `_get_code` with its `format` fields
substituted). -/
def _get_code (st : TransState) : String :=
  "\n" ++ includesCode ++ "\n\nnamespace " ++ _FUNCTION_NAMESPACE ++ " \x7b\n\n" ++
  "using CppWorkflowResult = std::tuple<std::vector<ROOT::RDF::RResultHandle>,\n" ++
  "                          std::vector<std::string>,\n" ++
  "                          std::vector<ROOT::RDF::RNode>>;\n\n" ++
  "CppWorkflowResult " ++ _FUNCTION_NAME ++ "(ROOT::RDF::RNode &node0)\n\x7b\n" ++
  "  std::vector<ROOT::RDF::RResultHandle> result_handles;\n" ++
  "  std::vector<std::string> result_types;\n" ++
  "  std::vector<ROOT::RDF::RNode> output_nodes;\n\n" ++
  "  // To make Snapshots lazy\n" ++
  "  ROOT::RDF::RSnapshotOptions lazy_options;\n" ++
  "  lazy_options.fLazy = true;\n\n" ++
  st.lambdas ++ "\n\n" ++ renderStmts st.nodesCode ++ "\n\n" ++
  "  return \x7b std::move(result_handles), std::move(result_types), " ++
  "std::move(output_nodes) \x7d;\n\x7d\n\n\x7d // namespace " ++
  _FUNCTION_NAMESPACE ++ "\n"

/-- The `application_code` property: the code of this instance (computed once
and cached on the instance; idempotent, so the embedding computes it
directly). -/
def application_code (st : TransState) : String := _get_code st

/-! ## The compilation cache `_compile` -/

/-- The process-wide class-level state of `CppWorkflow`: the cache
`_CACHED_WFS : code -> workflow id`, the counter `_WF_ID_COUNTER`, and (for
stating how often the compiler/loader boundary ran) the log of source texts
passed to `TSystem::CompileMacro`, in call order. -/
structure CacheState where
  cachedWfs : List (String × Nat)
  wfIdCounter : Nat
  compileLog : List String
deriving DecidableEq, Repr

/-- The class-level state at process start. -/
def initCache : CacheState := { cachedWfs := [], wfIdCounter := 0, compileLog := [] }

/-- `CppWorkflow._compile` for a workflow whose `application_code` is `code`.
`compileOk` abstracts the external compiler/loader boundary
(`TSystem::CompileMacro`), a deterministic function of the source text.
On a cache hit the cached id is returned untouched; on a miss the code is
written out and handed to `CompileMacro` (logged in `compileLog`); failure
raises `RuntimeError`, success inserts the new cache entry and bumps the
counter. -/
def _compile (compileOk : String → Bool) (code : String) (st : CacheState) :
    Except String (Nat × CacheState) :=
  match st.cachedWfs.lookup code with
  | some this_wf_id => .ok (this_wf_id, st)
  | none =>
      let this_wf_id := st.wfIdCounter
      let st1 := { st with compileLog := st.compileLog ++ [code] }
      if compileOk code then
        .ok (this_wf_id,
          { st1 with
              cachedWfs := st1.cachedWfs ++ [(code, this_wf_id)],
              wfIdCounter := st1.wfIdCounter + 1 })
      else
        .error "RuntimeError: Error compiling the RDataFrame workflow file"

/-- A sequence of workflow cycles in one process: each cycle calls `_compile`
on its generated source text against the shared class-level state.  Returns
the outcome of every cycle (in order) and the final class-level state.  A
failing cycle leaves the class-level state unchanged (the failed compile is
still an invocation of the boundary, hence logged). -/
def runCompiles (compileOk : String → Bool) :
    List String → CacheState → List (Except String Nat) × CacheState
  | [], st => ([], st)
  | code :: rest, st =>
      match _compile compileOk code st with
      | .ok (id, st') =>
          let (outs, stF) := runCompiles compileOk rest st'
          (.ok id :: outs, stF)
      | .error e =>
          let st' := { st with compileLog := st.compileLog ++ [code] }
          let (outs, stF) := runCompiles compileOk rest st'
          (.error e :: outs, stF)

/-! ## Execution model `_run_function`

The compiled workflow function is exactly the generated code: running it
executes the emitted statements in order, so the three vectors it returns are
determined by `_nodes_code`.  Modelled from the spec: the Execution &
Reconciliation Engine receives "three parallel collections (opaque result
handles, result type names, carry-over native nodes for non-native actions)"
from the artifact; the embedding reads those collections off the emitted
statements (each `emplace_back`/`push_back` statement appends one element).
The opaque native objects themselves (`RResultHandle`, `RNode`, the
`AsNumpy` result) are represented symbolically, and the run-time type name
that `TClass::GetClass(typeid(node<n>))->GetName()` yields for node `n` is an
oracle parameter `typeOf`. -/

/-- An element of the `result_handles` vector: the handle of the result of
node `n`, or a default-constructed (empty) placeholder handle. -/
inductive NativeHandle where
  | ofNode (n : Nat)
  | empty
deriving DecidableEq, Repr

/-- The elements the statement contributes to `result_handles`. -/
def stmtHandles : CppStmt → List NativeHandle
  | .emplaceHandle n => [.ofNode n]
  | .placeholders => [.empty]
  | _ => []

/-- The `result_handles` vector produced by running the generated code. -/
def nativeHandles (stmts : List CppStmt) : List NativeHandle :=
  (stmts.map stmtHandles).flatten

/-- The elements the statement contributes to `result_types` (a `typeBlock`
pushes the runtime type name of its node, the `AsNumpy` placeholder pushes an
empty string). -/
def stmtTypes (typeOf : Nat → String) : CppStmt → List String
  | .typeBlock n _ => [typeOf n]
  | .placeholders => [""]
  | _ => []

/-- The `result_types` vector produced by running the generated code. -/
def nativeTypes (typeOf : Nat → String) (stmts : List CppStmt) : List String :=
  (stmts.map (stmtTypes typeOf)).flatten

/-- The elements the statement contributes to `output_nodes` (the parent
node reference saved for an `AsNumpy` action). -/
def stmtOutputs : CppStmt → List Nat
  | .pushOutputNode p => [p]
  | _ => []

/-- The `output_nodes` vector produced by running the generated code. -/
def nativeOutputs (stmts : List CppStmt) : List Nat :=
  (stmts.map stmtOutputs).flatten

/-- An element of the final `results` list handed back by `_run_function`:
a copied native result handle, the Python-side result of an `AsNumpy` call
applied on carried-over node `parent` (recorded with the operation that was
invoked), or a `SnapshotResult(treename, [path])` descriptor (the class from
`DistRDF.PythonMergeables`, modelled from the spec as the structured
`(logical_name, [rewritten_output_path])` pair). -/
inductive ExecResult where
  | handle (h : NativeHandle)
  | pyRes (parent : Nat) (op : Operation)
  | snap (treename : PyVal) (paths : List PyVal)
deriving DecidableEq, Repr

/-- Python's `str.strip()`: leading and trailing whitespace removed. -/
def pyStrip (s : String) : String :=
  String.mk
    (((s.data.dropWhile Char.isWhitespace).reverse.dropWhile
        Char.isWhitespace).reverse)

/-- The helper `get_result_type` nested in `_run_function`: empty native
strings (Python-only action slots) map to `''`; otherwise the text before the
first `<` and the trailing `>` are stripped (`s[pos+1:-1].strip()`), and a
missing `<` raises `RuntimeError`. -/
def get_result_type (s : String) : Except String String :=
  if s = "" then .ok ""
  else
    match s.toList.findIdx? (fun c => c = '<') with
    | none => .error "RuntimeError: Error parsing the result types of RDataFrame workflow"
    | some pos => .ok (pyStrip (String.mk ((s.toList.drop (pos + 1)).dropLast)))

/-- In-place assignments `l[i] = v` applied in order (used for both result
slots and result-type slots). -/
def setSlots {α : Type} (l : List α) (ups : List (Nat × α)) : List α :=
  ups.foldl (fun acc u => acc.set u.1 u.2) l

/-- `CppWorkflow._run_function` after the compiled function returned its three
vectors: copy the handles into a Python list, strip the
`ROOT::RDF::RResultPtr<...>` wrapper from every type name, apply each
recorded Python-only action to its carried-over node (forcing `lazy=True` on
its kwargs first) and store the outcome in its reserved slot, trigger the
batched `RunGraphs` evaluation (no effect on the structure of the lists),
overwrite each recorded Snapshot slot with `SnapshotResult(treename, [path])`
and null out its type slot, and finally trigger `GetValue` on every
`AsNumpy` result (again no structural effect). -/
def _run_function (typeOf : Nat → String) (st : TransState) :
    Except String (List ExecResult × List (Option String)) := do
  let v_results := nativeHandles st.nodesCode
  let v_res_types := nativeTypes typeOf st.nodesCode
  let v_nodes := nativeOutputs st.nodesCode
  let results0 := v_results.map ExecResult.handle
  let stripped ← v_res_types.mapM get_result_type
  let res_types0 := stripped.map some
  let pyUpdates := (st.pyActions.zip v_nodes).map
    (fun u => (u.1.1, ExecResult.pyRes u.2 (opSetLazy u.1.2)))
  let results1 := setSlots results0 pyUpdates
  let results2 := setSlots results1
    (st.snapshots.map (fun e => (e.1, ExecResult.snap e.2.1 [e.2.2])))
  let res_types1 := setSlots res_types0
    (st.snapshots.map (fun e => (e.1, (none : Option String))))
  return (results2, res_types1)

/-- `CppWorkflow.execute` as observed through its return value: generate the
computation graph, compile (the cache only selects which identically-coded
artifact is invoked, so the invoked function is this translation's code) and
run it. -/
def executeModel (typeOf : Nat → String) (range_id : Nat) (graph : Graph) :
    Except String (List ExecResult × List (Option String)) := do
  let (st, _) ← _generate_computation_graph range_id graph
  _run_function typeOf st

/-! ## Derived notions used to state and prove the claims -/

/-- The canonical decimal digit list of `n` (the accumulator-free value of
`natChars`). -/
def natRepChars (n : Nat) : List Char :=
  natChars (n + 1) n []

/-- The action nodes of a node list: the nodes whose operation is dispatched
to a non-generic handler (`Action`, `Snapshot` or `AsNumpy`), in order.
These are exactly the nodes that receive a result slot. -/
def actNodes : List (Nat × Node) → List (Nat × Node)
  | [] => []
  | x :: rest =>
      if x.2.operation.kind = OpKind.generic then actNodes rest
      else x :: actNodes rest

/-- The materialized form of an operation (its value after
`_create_lazy_op_if_needed`); when materialization raises, the operation
itself is returned as an irrelevant default. -/
def matResult (range_id : Nat) (op : Operation) : Operation :=
  match _create_lazy_op_if_needed op range_id with
  | .ok (_, m) => m
  | .error _ => op

/-- The state of the original operation object after
`_create_lazy_op_if_needed` returned; when materialization raises, the
operation itself (a raising call leaves the original untouched). -/
def origAfterMat (range_id : Nat) (op : Operation) : Operation :=
  match _create_lazy_op_if_needed op range_id with
  | .ok (orig, _) => orig
  | .error _ => op

/-- The fragments `_add_node` appends to `_nodes_code` for one node. -/
def stmtsFor (range_id : Nat) (x : Nat × Node) : List CppStmt :=
  let m := matResult range_id x.2.operation
  match x.2.operation.kind with
  | .generic =>
      [.defineNode x.1 x.2.parent_id m.name (_get_args_template m) (_get_args_call m.args)]
  | .action =>
      [.defineNode x.1 x.2.parent_id m.name (_get_args_template m) (_get_args_call m.args),
       .emplaceHandle x.1, .typeBlock x.1 m.name]
  | .snapshot =>
      [.defineNode x.1 x.2.parent_id m.name (_get_args_template m) (_get_args_call m.args),
       .emplaceHandle x.1, .typeBlock x.1 m.name]
  | .asNumpy => [.pushOutputNode x.2.parent_id, .placeholders]

/-- The `_snapshots` and `_py_actions` side tables produced by walking
`nodes` with the result-slot counter starting at `k`. -/
def sideTables (range_id k : Nat) :
    List (Nat × Node) → List (Nat × PyVal × PyVal) × List (Nat × Operation)
  | [] => ([], [])
  | x :: rest =>
      match x.2.operation.kind with
      | .generic => sideTables range_id k rest
      | .action => sideTables range_id (k + 1) rest
      | .asNumpy =>
          let t := sideTables range_id (k + 1) rest
          (t.1, (k, opSetLazy x.2.operation) :: t.2)
      | .snapshot =>
          let t := sideTables range_id (k + 1) rest
          let m := matResult range_id x.2.operation
          match (m.args[0]? : Option PyVal), (m.args[1]? : Option PyVal) with
          | some a0, some a1 => ((k, a0, a1) :: t.1, t.2)
          | _, _ => t

/-- The `(slot, updated result)` assignments performed by the Python-only
action loop of `_run_function`, for a walk starting at slot `k`. -/
def pyUpdatesRef (range_id k : Nat) : List (Nat × Node) → List (Nat × ExecResult)
  | [] => []
  | x :: rest =>
      match x.2.operation.kind with
      | .generic => pyUpdatesRef range_id k rest
      | .asNumpy =>
          (k, .pyRes x.2.parent_id (opSetLazy (opSetLazy x.2.operation))) ::
            pyUpdatesRef range_id (k + 1) rest
      | _ => pyUpdatesRef range_id (k + 1) rest

/-- The native result handle produced for one action node. -/
def rawHandleFor (x : Nat × Node) : NativeHandle :=
  match x.2.operation.kind with
  | .asNumpy => .empty
  | _ => .ofNode x.1

/-- The native result-type string produced for one action node. -/
def rawTypeFor (typeOf : Nat → String) (x : Nat × Node) : String :=
  match x.2.operation.kind with
  | .asNumpy => ""
  | _ => typeOf x.1

/-- The stripped form of one native type string (irrelevant default when
`get_result_type` raises, which a successful run excludes). -/
def stripOrDefault (s : String) : String :=
  match get_result_type s with
  | .ok t => t
  | .error _ => ""

/-- The stripped result-type string of one action node. -/
def strippedOf (typeOf : Nat → String) (x : Nat × Node) : String :=
  stripOrDefault (rawTypeFor typeOf x)

/-- The content of the result slot of one action node after the whole
reconciliation pass of `_run_function`. -/
def finalResFor (range_id : Nat) (x : Nat × Node) : ExecResult :=
  let m := matResult range_id x.2.operation
  match x.2.operation.kind with
  | .generic => .handle .empty
  | .action => .handle (.ofNode x.1)
  | .snapshot =>
      .snap (m.args.getD 0 (.scalar (.str ""))) [m.args.getD 1 (.scalar (.str ""))]
  | .asNumpy => .pyRes x.2.parent_id (opSetLazy x.2.operation)

/-- The content of the result-type slot of one action node after the whole
reconciliation pass of `_run_function`. -/
def finalTypeFor (typeOf : Nat → String) (x : Nat × Node) : Option String :=
  match x.2.operation.kind with
  | .snapshot => none
  | _ => some (strippedOf typeOf x)

/-- Renderings of the elements of `l`, each preceded by the separator. -/
def sepJoin {α : Type} (f : α → String) (sep : String) : List α → String
  | [] => ""
  | e :: rest => sep ++ f e ++ sepJoin f sep rest

/-- Spec-side rendering of the element list of a tuple argument:
the element renderings joined with `","`. -/
def specTupleRender : List PyScalar → String
  | [] => ""
  | [e] => renderTupElem e
  | e :: rest => renderTupElem e ++ "," ++ specTupleRender rest

/-- Spec-side rendering of one positional argument, written from the amended
wording of the argument-rendering rule: the reserved sentinel renders bare,
any other string renders quoted, a tuple renders brace-initialized with
string elements quoted and other elements in their natural literal form, and
any other scalar renders as nothing. -/
def specRenderArg : PyVal → String
  | .scalar (.str s) =>
      if s = "lazy_options" then "lazy_options" else "\"" ++ s ++ "\""
  | .scalar (.int _) => ""
  | .scalar (.bool _) => ""
  | .tup elems => "\x7b" ++ specTupleRender elems ++ "\x7d"

/-- Spec-side rendering of a whole argument list: the per-argument renderings
joined with `", "`. -/
def specArgsRender : List PyVal → String
  | [] => ""
  | [a] => specRenderArg a
  | a :: rest => specRenderArg a ++ ", " ++ specArgsRender rest

/-- Whether a fragment is a "define node from parent" statement. -/
def isDefineStmt : CppStmt → Bool
  | .defineNode _ _ _ _ _ => true
  | _ => false

/-- A graph with every keyword-option mapping blanked out; two graphs that
agree after `eraseKwargs` differ at most in their `kwargs`. -/
def eraseKwargs (graph : Graph) : Graph :=
  graph.map (fun x => (x.1, { x.2 with operation := { x.2.operation with kwargs := [] } }))

/-- The projection of a translation outcome onto what determines the
generated source text: success/failure, the `_lambdas` text and the emitted
node statements. -/
def transView (res : Except String (TransState × List (Nat × Node))) :
    Except String (String × List CppStmt) :=
  res.map (fun p => (p.1.lambdas, p.1.nodesCode))

/-- Rebuilding of the translation outcome for a cons node list: the head
node (with its post-materialization operation `op'`) is prepended to the
returned updated graph. -/
def consOutcome (n : Nat) (node : Node) (op' : Operation)
    (res : Except String (TransState × List (Nat × Node))) :
    Except String (TransState × List (Nat × Node)) :=
  match res with
  | .error e => .error e
  | .ok (stF, rest') => .ok (stF, (n, { node with operation := op' }) :: rest')

/-! ## Lemmas: decimal rendering -/

theorem digitToChar_inj : ∀ a < 10, ∀ b < 10, digitToChar a = digitToChar b → a = b := by
  decide

theorem natChars_shift (n : Nat) :
    ∀ fuel acc, n < fuel → natChars fuel n acc = natRepChars n ++ acc := by
  induction n using Nat.strong_induction_on with
  | _ n ih =>
    intro fuel acc hf
    match fuel, hf with
    | f + 1, hf =>
      by_cases h : n / 10 = 0
      · simp [natChars, natRepChars, h]
      · have hn : 0 < n := by
          rcases Nat.eq_zero_or_pos n with h0 | h0
          · subst h0; simp at h
          · exact h0
        have hlt : n / 10 < n := Nat.div_lt_self hn (by norm_num)
        have hfl : n / 10 < f := by omega
        have lhs : natChars (f + 1) n acc =
            natChars f (n / 10) (digitToChar (n % 10) :: acc) := by
          simp [natChars, h]
        have rhs : natRepChars n =
            natChars n (n / 10) (digitToChar (n % 10) :: []) := by
          simp [natRepChars, natChars, h]
        rw [lhs, ih (n / 10) hlt f _ hfl, rhs, ih (n / 10) hlt n _ hlt]
        simp

theorem natRepChars_of_div_eq_zero {n : Nat} (h : n / 10 = 0) :
    natRepChars n = [digitToChar n] := by
  have hm : n % 10 = n := by omega
  simp [natRepChars, natChars, h, hm]

theorem natRepChars_of_div_ne_zero {n : Nat} (h : n / 10 ≠ 0) :
    natRepChars n = natRepChars (n / 10) ++ [digitToChar (n % 10)] := by
  have hn : 0 < n := by
    rcases Nat.eq_zero_or_pos n with h0 | h0
    · subst h0; simp at h
    · exact h0
  have hlt : n / 10 < n := Nat.div_lt_self hn (by norm_num)
  have : natRepChars n = natChars n (n / 10) (digitToChar (n % 10) :: []) := by
    simp [natRepChars, natChars, h]
  rw [this, natChars_shift (n / 10) n _ hlt]

theorem natRepChars_length_pos (n : Nat) : 0 < (natRepChars n).length := by
  by_cases h : n / 10 = 0
  · rw [natRepChars_of_div_eq_zero h]; simp
  · rw [natRepChars_of_div_ne_zero h]; simp

theorem natRepChars_inj : ∀ a b : Nat, natRepChars a = natRepChars b → a = b := by
  intro a
  induction a using Nat.strong_induction_on with
  | _ a ih =>
    intro b heq
    by_cases ha : a / 10 = 0 <;> by_cases hb : b / 10 = 0
    · rw [natRepChars_of_div_eq_zero ha, natRepChars_of_div_eq_zero hb] at heq
      exact digitToChar_inj a (by omega) b (by omega) (by injection heq)
    · rw [natRepChars_of_div_eq_zero ha, natRepChars_of_div_ne_zero hb] at heq
      have hlen := congrArg List.length heq
      simp only [List.length_append, List.length_cons, List.length_nil] at hlen
      have hp := natRepChars_length_pos (b / 10)
      omega
    · rw [natRepChars_of_div_ne_zero ha, natRepChars_of_div_eq_zero hb] at heq
      have hlen := congrArg List.length heq
      simp only [List.length_append, List.length_cons, List.length_nil] at hlen
      have hp := natRepChars_length_pos (a / 10)
      omega
    · rw [natRepChars_of_div_ne_zero ha, natRepChars_of_div_ne_zero hb] at heq
      have hpair := List.append_inj' heq (by simp)
      have hdiv : a / 10 = b / 10 := by
        have ha10 : 0 < a := by
          rcases Nat.eq_zero_or_pos a with h0 | h0
          · subst h0; simp at ha
          · exact h0
        exact ih (a / 10) (Nat.div_lt_self ha10 (by norm_num)) (b / 10) hpair.1
      have hmod : a % 10 = b % 10 := by
        have := hpair.2
        injection this with h1 _
        exact digitToChar_inj _ (by omega) _ (by omega) h1
      omega

theorem pyStrOfNat_inj {a b : Nat} (h : pyStrOfNat a = pyStrOfNat b) : a = b := by
  apply natRepChars_inj
  have := congrArg String.data h
  simpa [pyStrOfNat, natRepChars] using this

theorem pyStrOfNat_affix_inj (pre suf : String) {a b : Nat}
    (h : pre ++ pyStrOfNat a ++ suf = pre ++ pyStrOfNat b ++ suf) : a = b := by
  apply pyStrOfNat_inj
  have hd := congrArg String.data h
  simp only [String.data_append] at hd
  have h1 := List.append_cancel_right hd
  have h2 := List.append_cancel_left h1
  apply String.ext
  exact h2

/-! ## Lemmas: dictionary update and materialization -/

theorem dictSet_map_self (d : List (String × PyVal)) (k : String) (v : PyVal)
    (h : d.any (fun p => p.1 = k) = false) :
    d.map (fun p => if p.1 = k then (k, v) else p) = d := by
  conv_rhs => rw [← List.map_id d]
  apply List.map_congr_left
  intro p hp
  have hk : ¬ p.1 = k := by
    intro hk
    have : d.any (fun p => p.1 = k) = true :=
      List.any_eq_true.mpr ⟨p, hp, by simp [hk]⟩
    rw [h] at this
    exact Bool.noConfusion this
  simp [hk]

theorem dictSet_idem (d : List (String × PyVal)) (k : String) (v : PyVal) :
    dictSet (dictSet d k v) k v = dictSet d k v := by
  cases hAny : d.any (fun p => p.1 = k) with
  | true =>
      have h1 : dictSet d k v = d.map (fun p => if p.1 = k then (k, v) else p) := by
        simp [dictSet, hAny]
      have hmem : (d.map (fun p => if p.1 = k then (k, v) else p)).any
          (fun p => p.1 = k) = true := by
        rcases List.any_eq_true.mp hAny with ⟨p, hp, hpk⟩
        refine List.any_eq_true.mpr ⟨(k, v), List.mem_map.mpr ⟨p, hp, ?_⟩, by simp⟩
        simp only [decide_eq_true_eq] at hpk
        simp [hpk]
      rw [h1]
      simp only [dictSet, hmem, if_true]
      rw [List.map_map]
      apply List.map_congr_left
      intro p _
      by_cases hp : p.1 = k <;> simp [Function.comp, hp]
  | false =>
      have h1 : dictSet d k v = d ++ [(k, v)] := by
        simp [dictSet, hAny]
      have hmem : ((d ++ [(k, v)]).any (fun p => p.1 = k)) = true := by
        simp
      rw [h1]
      simp only [dictSet, hmem, if_true]
      rw [List.map_append, dictSet_map_self d k v hAny]
      simp

theorem opSetLazy_idem (op : Operation) : opSetLazy (opSetLazy op) = opSetLazy op := by
  simp [opSetLazy, dictSet_idem]

theorem opSetLazy_kind (op : Operation) : (opSetLazy op).kind = op.kind := rfl

theorem opSetLazy_args (op : Operation) : (opSetLazy op).args = op.args := rfl

/-- The materializer on a generic operation: identity, no exception. -/
theorem mat_generic {op : Operation} (h : op.kind = .generic) (r : Nat) :
    _create_lazy_op_if_needed op r = .ok (op, op) := by
  simp [_create_lazy_op_if_needed, h]

/-- The materializer on a plain action: identity, no exception. -/
theorem mat_action {op : Operation} (h : op.kind = .action) (r : Nat) :
    _create_lazy_op_if_needed op r = .ok (op, op) := by
  simp [_create_lazy_op_if_needed, h]

/-- The materializer on an `AsNumpy` action: sets the `lazy` option on the
original object in place and returns it. -/
theorem mat_asnumpy {op : Operation} (h : op.kind = .asNumpy) (r : Nat) :
    _create_lazy_op_if_needed op r = .ok (opSetLazy op, opSetLazy op) := by
  simp [_create_lazy_op_if_needed, h]

/-- Whatever the materializer returns preserves the operation kind. -/
theorem mat_ok_kind {op : Operation} {r : Nat} {orig m : Operation}
    (h : _create_lazy_op_if_needed op r = .ok (orig, m)) :
    orig.kind = op.kind ∧ m.kind = op.kind := by
  cases hk : op.kind
  case generic =>
      rw [mat_generic hk] at h
      injection h with h; injection h with h1 h2; subst h1; subst h2
      exact ⟨hk, hk⟩
  case action =>
      rw [mat_action hk] at h
      injection h with h; injection h with h1 h2; subst h1; subst h2
      exact ⟨hk, hk⟩
  case asNumpy =>
      rw [mat_asnumpy hk] at h
      injection h with h; injection h with h1 h2; subst h1; subst h2
      exact ⟨(opSetLazy_kind op).trans hk, (opSetLazy_kind op).trans hk⟩
  case snapshot =>
      simp only [_create_lazy_op_if_needed, hk] at h
      rcases hargs : op.args[1]? with _ | v
      · rw [hargs] at h; exact absurd h (by simp)
      · rw [hargs] at h
        rcases v with s | elems
        · rcases s with s | n | b
          · simp at h
            obtain ⟨h1, h2⟩ := h
            subst h1; subst h2
            exact ⟨hk, rfl⟩
          · exact absurd h (by simp)
          · exact absurd h (by simp)
        · exact absurd h (by simp)

/-! ## Lemmas: argument rendering -/

theorem fold_render_go {α : Type} (f : α → String) (sep : String) :
    ∀ (l : List α) (s : String) (n : Nat), 0 < n →
      (l.foldl (fun (acc : String × Nat) e =>
          (acc.1 ++ (if acc.2 > 0 then sep else "") ++ f e, acc.2 + 1)) (s, n)).1
        = s ++ sepJoin f sep l := by
  intro l
  induction l with
  | nil => intro s n _; simp [sepJoin]
  | cons e rest ih =>
      intro s n hn
      have hif : ((if n > 0 then sep else "") : String) = sep := if_pos hn
      simp only [List.foldl_cons, hif]
      rw [ih _ (n + 1) (by omega)]
      simp [sepJoin, String.append_assoc]

theorem sepJoin_congr {α : Type} {f g : α → String} (sep : String)
    (h : ∀ x, f x = g x) : ∀ l : List α, sepJoin f sep l = sepJoin g sep l := by
  intro l
  induction l with
  | nil => rfl
  | cons e rest ih => simp [sepJoin, h e, ih]

theorem specTupleRender_cons (e : PyScalar) (rest : List PyScalar) :
    specTupleRender (e :: rest) = renderTupElem e ++ sepJoin renderTupElem "," rest := by
  induction rest generalizing e with
  | nil => simp [specTupleRender, sepJoin]
  | cons r rs ih =>
      show renderTupElem e ++ "," ++ specTupleRender (r :: rs) = _
      rw [ih r]
      simp [sepJoin, String.append_assoc]

theorem specArgsRender_cons (a : PyVal) (rest : List PyVal) :
    specArgsRender (a :: rest) = specRenderArg a ++ sepJoin specRenderArg ", " rest := by
  induction rest generalizing a with
  | nil => simp [specArgsRender, sepJoin]
  | cons r rs ih =>
      show specRenderArg a ++ ", " ++ specArgsRender (r :: rs) = _
      rw [ih r]
      simp [sepJoin, String.append_assoc]

theorem renderTuple_eq (elems : List PyScalar) :
    renderTuple elems = specTupleRender elems := by
  cases elems with
  | nil => rfl
  | cons e rest =>
      have h0 : renderTuple (e :: rest)
          = ("" ++ "" ++ renderTupElem e) ++ sepJoin renderTupElem "," rest := by
        simp only [renderTuple, List.foldl_cons]
        exact fold_render_go renderTupElem "," rest _ 1 (by omega)
      rw [h0, specTupleRender_cons]
      simp

theorem renderArg_eq_spec (a : PyVal) : renderArg a = specRenderArg a := by
  cases a with
  | scalar v => cases v <;> rfl
  | tup elems => simp [renderArg, specRenderArg, renderTuple_eq]

theorem get_args_call_eq_spec (args : List PyVal) :
    _get_args_call args = specArgsRender args := by
  cases args with
  | nil => rfl
  | cons a l =>
      have h0 : _get_args_call (a :: l)
          = ("" ++ "" ++ renderArg a) ++ sepJoin renderArg ", " l := by
        simp only [_get_args_call, List.foldl_cons]
        exact fold_render_go renderArg ", " l _ 1 (by omega)
      rw [h0, specArgsRender_cons, renderArg_eq_spec,
        sepJoin_congr ", " renderArg_eq_spec l]
      simp

/-! ## Lemmas: the Snapshot materialization policy -/

theorem mat_snapshot_eq (op : Operation) (r : Nat) {fname : String}
    (hk : op.kind = OpKind.snapshot)
    (h1 : op.args[1]? = some (.scalar (.str fname))) :
    _create_lazy_op_if_needed op r = .ok (op, { op with args :=
      (let args1 := op.args.set 1 (.scalar (.str
        (pyPartitionBefore fname ".root" ++ "_" ++ pyStrOfNat r ++ ".root")));
       let args2 := if args1.length = 2 then args1 ++ [.scalar (.str "")] else args1;
       if args2.length = 4 then args2.set 3 (.scalar (.str "lazy_options"))
       else args2 ++ [.scalar (.str "lazy_options")]) }) := by
  simp only [_create_lazy_op_if_needed, hk, h1]

theorem arg1_of_some {op : Operation} {v : PyVal} (h1 : op.args[1]? = some v) :
    1 < op.args.length := by
  by_contra hh
  push_neg at hh
  rw [List.getElem?_eq_none (by omega)] at h1
  exact Option.noConfusion h1

theorem snapshot_rewritten_path (op : Operation) (r : Nat) {fname : String}
    (hk : op.kind = OpKind.snapshot)
    (h1 : op.args[1]? = some (.scalar (.str fname))) :
    ∃ m, _create_lazy_op_if_needed op r = .ok (op, m) ∧
      m.args[1]? = some (.scalar (.str
        (pyPartitionBefore fname ".root" ++ "_" ++ pyStrOfNat r ++ ".root"))) := by
  have hlen : 1 < op.args.length := arg1_of_some h1
  refine ⟨_, mat_snapshot_eq op r hk h1, ?_⟩
  simp only
  set v : PyVal := .scalar (.str
    (pyPartitionBefore fname ".root" ++ "_" ++ pyStrOfNat r ++ ".root")) with hv
  have hA : (op.args.set 1 v)[1]? = some v :=
    List.getElem?_set_self (by simpa using hlen)
  set args1 := op.args.set 1 v with ha1
  have h1len : 1 < args1.length := by simp [ha1]; omega
  by_cases h2 : args1.length = 2
  · simp only [h2, if_true]
    have hB : (args1 ++ [PyVal.scalar (.str "")])[1]? = some v := by
      rw [List.getElem?_append_left h1len]; exact hA
    by_cases h4 : (args1 ++ [PyVal.scalar (.str "")]).length = 4
    · simp only [h4, if_true]
      rw [List.getElem?_set_ne (by omega)]
      exact hB
    · simp only [h4, if_false]
      rw [List.getElem?_append_left (by simp; omega)]
      exact hB
  · simp only [h2, if_false]
    by_cases h4 : args1.length = 4
    · simp only [h4, if_true]
      rw [List.getElem?_set_ne (by omega)]
      exact hA
    · simp only [h4, if_false]
      rw [List.getElem?_append_left h1len]
      exact hA

/-- **C7**: for every Snapshot operation with output path `"out.root"` and
any two distinct partition ids, materialization (which leaves the original
descriptor untouched) rewrites `args[1]` to `"out_<P>.root"` for partition
`P`, and the two rewritten paths differ. -/
theorem c7_snapshot_path_uniqueness (op : Operation) (p1 p2 : Nat)
    (hk : op.kind = OpKind.snapshot)
    (h1 : op.args[1]? = some (.scalar (.str "out.root")))
    (hne : p1 ≠ p2) :
    ∃ m1 m2 : Operation,
      _create_lazy_op_if_needed op p1 = .ok (op, m1) ∧
      _create_lazy_op_if_needed op p2 = .ok (op, m2) ∧
      m1.args[1]? = some (.scalar (.str ("out_" ++ pyStrOfNat p1 ++ ".root"))) ∧
      m2.args[1]? = some (.scalar (.str ("out_" ++ pyStrOfNat p2 ++ ".root"))) ∧
      ("out_" ++ pyStrOfNat p1 ++ ".root" : String) ≠
        "out_" ++ pyStrOfNat p2 ++ ".root" := by
  have hpart : pyPartitionBefore "out.root" ".root" = "out" := by decide
  have hglue : ("out" ++ "_" : String) = "out_" := by decide
  obtain ⟨m1, hm1, hp1⟩ := snapshot_rewritten_path op p1 hk h1
  obtain ⟨m2, hm2, hp2⟩ := snapshot_rewritten_path op p2 hk h1
  rw [hpart, hglue] at hp1 hp2
  refine ⟨m1, m2, hm1, hm2, hp1, hp2, ?_⟩
  intro heq
  exact hne (pyStrOfNat_affix_inj "out_" ".root" heq)

/-- Witness for `c7_snapshot_path_uniqueness`: the Snapshot
`("t", "out.root")` materialized for partitions 3 and 2. -/
theorem c7_snapshot_path_uniqueness_witness :
    ∃ m1 m2 : Operation,
      _create_lazy_op_if_needed
        ⟨OpKind.snapshot, "Snapshot",
          [.scalar (.str "t"), .scalar (.str "out.root")], []⟩ 3 =
        .ok (⟨OpKind.snapshot, "Snapshot",
          [.scalar (.str "t"), .scalar (.str "out.root")], []⟩, m1) ∧
      _create_lazy_op_if_needed
        ⟨OpKind.snapshot, "Snapshot",
          [.scalar (.str "t"), .scalar (.str "out.root")], []⟩ 2 =
        .ok (⟨OpKind.snapshot, "Snapshot",
          [.scalar (.str "t"), .scalar (.str "out.root")], []⟩, m2) ∧
      m1.args[1]? = some (.scalar (.str ("out_" ++ pyStrOfNat 3 ++ ".root"))) ∧
      m2.args[1]? = some (.scalar (.str ("out_" ++ pyStrOfNat 2 ++ ".root"))) ∧
      ("out_" ++ pyStrOfNat 3 ++ ".root" : String) ≠
        "out_" ++ pyStrOfNat 2 ++ ".root" :=
  c7_snapshot_path_uniqueness
    ⟨OpKind.snapshot, "Snapshot",
      [.scalar (.str "t"), .scalar (.str "out.root")], []⟩ 3 2
    rfl (by decide) (by decide)

/-- **C8 counterexample**: a Snapshot descriptor entering materialization
with five positional arguments yields a materialized copy with six
positional arguments (the sentinel is appended, not substituted), not the
four the claim states. -/
theorem c8_counterexample :
    (_create_lazy_op_if_needed
        ⟨OpKind.snapshot, "Snapshot",
          [.scalar (.str "t"), .scalar (.str "o.root"), .scalar (.str "c"),
           .scalar (.str "opts"), .scalar (.str "extra")], []⟩ 2).map
      (fun p => p.2.args.length) = .ok 6 ∧ (6 : Nat) ≠ 4 := by
  exact ⟨rfl, by decide⟩

/-- **C8 (amended)**: for every Snapshot descriptor with a string output
path and *at most four* positional arguments, the materialized copy has
exactly four positional arguments: the unchanged treename, the rewritten
path, the original column-selector (defaulted to the empty string when
absent), and the `"lazy_options"` sentinel (replacing an existing fourth
argument, appended otherwise). -/
theorem c8_snapshot_arg_normalization (op : Operation) (r : Nat) {fname : String}
    (hk : op.kind = OpKind.snapshot)
    (h1 : op.args[1]? = some (.scalar (.str fname)))
    (hlen : op.args.length ≤ 4) :
    ∃ m, _create_lazy_op_if_needed op r = .ok (op, m) ∧
      m.args.length = 4 ∧
      m.args[0]? = op.args[0]? ∧
      m.args[1]? = some (.scalar (.str
        (pyPartitionBefore fname ".root" ++ "_" ++ pyStrOfNat r ++ ".root"))) ∧
      m.args[2]? = (if op.args.length = 2 then some (.scalar (.str "")) else op.args[2]?) ∧
      m.args[3]? = some (.scalar (.str "lazy_options")) := by
  refine ⟨_, mat_snapshot_eq op r hk h1, ?_⟩
  rcases hargs : op.args with _ | ⟨a0, args'⟩
  · rw [hargs] at h1; exact absurd h1 (by simp)
  rcases args' with _ | ⟨a1, rest⟩
  · rw [hargs] at h1; exact absurd h1 (by simp)
  have ha1 : a1 = .scalar (.str fname) := by
    rw [hargs] at h1
    simpa using h1
  subst ha1
  rw [hargs] at hlen
  rcases rest with _ | ⟨a2, rest2⟩
  · simp [hargs, List.set]
  rcases rest2 with _ | ⟨a3, rest3⟩
  · simp [hargs, List.set]
  rcases rest3 with _ | ⟨a4, rest4⟩
  · simp [hargs, List.set]
  · simp only [List.length_cons] at hlen
    omega

/-- Witness for `c8_snapshot_arg_normalization`: the two-argument Snapshot
`("t", "out.root")`, partition 2. -/
theorem c8_snapshot_arg_normalization_witness :
    ∃ m, _create_lazy_op_if_needed
        ⟨OpKind.snapshot, "Snapshot",
          [.scalar (.str "t"), .scalar (.str "out.root")], []⟩ 2 =
      .ok (⟨OpKind.snapshot, "Snapshot",
          [.scalar (.str "t"), .scalar (.str "out.root")], []⟩, m) ∧
      m.args.length = 4 ∧
      m.args[0]? = ([.scalar (.str "t"), .scalar (.str "out.root")] : List PyVal)[0]? ∧
      m.args[1]? = some (.scalar (.str
        (pyPartitionBefore "out.root" ".root" ++ "_" ++ pyStrOfNat 2 ++ ".root"))) ∧
      m.args[2]? = (if ([.scalar (.str "t"), .scalar (.str "out.root")] : List PyVal).length = 2
        then some (.scalar (.str "")) else ([.scalar (.str "t"), .scalar (.str "out.root")] : List PyVal)[2]?) ∧
      m.args[3]? = some (.scalar (.str "lazy_options")) :=
  c8_snapshot_arg_normalization
    ⟨OpKind.snapshot, "Snapshot",
      [.scalar (.str "t"), .scalar (.str "out.root")], []⟩ 2
    rfl (by decide) (by decide)

/-- **C4 counterexample**: a numeric positional argument renders as nothing
(no branch of `_get_args_call` matches it), not as its natural literal
form `"5"`. -/
theorem c4_counterexample :
    _get_args_call [.scalar (.int 5)] = "" ∧ ("" : String) ≠ "5" :=
  ⟨rfl, by decide⟩

/-- **C4 (amended)**: `_get_args_call` renders the positional arguments
joined by `", "`, where a string renders quoted, the reserved sentinel
`"lazy_options"` renders bare, a tuple renders brace-initialized with string
elements quoted and other elements in natural literal form, and *any other
scalar renders as nothing* (it contributes only its separator). -/
theorem c4_args_rendering (args : List PyVal) :
    _get_args_call args = specArgsRender args :=
  get_args_call_eq_spec args

/-- **C3 counterexample**: the `AsNumpy` overload of
`_create_lazy_op_if_needed` mutates the original descriptor in place: after
the call, the original's kwargs mapping has gained `lazy = True`, so the
original with empty kwargs is not unchanged. -/
theorem c3_counterexample :
    (_create_lazy_op_if_needed
        ⟨OpKind.asNumpy, "AsNumpy", [.tup [.str "y"]], []⟩ 0).map
      (fun p => p.1.kwargs) = .ok [("lazy", PyVal.scalar (PyScalar.bool true))] ∧
    [("lazy", PyVal.scalar (PyScalar.bool true))] ≠ ([] : List (String × PyVal)) :=
  ⟨rfl, by decide⟩

/-- **C3 (amended)**: materialization never mutates the original
descriptor's positional args, name or kind, and leaves the original fully
untouched for every kind *except* `AsNumpy`, whose overload sets
`lazy = True` on the original's kwargs mapping in place (the `Snapshot`
rewrite does operate on a deep copy). -/
theorem c3_materializer_frame (op : Operation) (r : Nat) (orig m : Operation)
    (h : _create_lazy_op_if_needed op r = .ok (orig, m)) :
    orig.args = op.args ∧ orig.name = op.name ∧ orig.kind = op.kind ∧
    (op.kind ≠ OpKind.asNumpy → orig = op) ∧
    (op.kind = OpKind.asNumpy → orig = opSetLazy op) := by
  cases hk : op.kind
  case generic =>
      rw [mat_generic hk] at h
      injection h with h; injection h with h1 h2; subst h1
      exact ⟨rfl, rfl, hk, fun _ => rfl, fun hc => absurd hc (by decide)⟩
  case action =>
      rw [mat_action hk] at h
      injection h with h; injection h with h1 h2; subst h1
      exact ⟨rfl, rfl, hk, fun _ => rfl, fun hc => absurd hc (by decide)⟩
  case asNumpy =>
      rw [mat_asnumpy hk] at h
      injection h with h; injection h with h1 h2; subst h1
      exact ⟨opSetLazy_args op, rfl, (opSetLazy_kind op).trans hk,
        fun hc => absurd rfl hc, fun _ => rfl⟩
  case snapshot =>
      simp only [_create_lazy_op_if_needed, hk] at h
      rcases hargs : (op.args[1]? : Option PyVal) with _ | v
      · rw [hargs] at h; exact absurd h (by simp)
      · rw [hargs] at h
        rcases v with s | elems
        · rcases s with s | n | b
          · simp at h
            obtain ⟨h1, h2⟩ := h
            subst h1
            exact ⟨rfl, rfl, hk, fun _ => rfl, fun hc => absurd hc (by decide)⟩
          · exact absurd h (by simp)
          · exact absurd h (by simp)
        · exact absurd h (by simp)

/-- Witness for `c3_materializer_frame`: the Snapshot `("t", "out.root")`
materialized for partition 2 (original returned unchanged). -/
theorem c3_materializer_frame_witness :
    (⟨OpKind.snapshot, "Snapshot",
        [.scalar (.str "t"), .scalar (.str "out.root")], []⟩ : Operation).args =
      (⟨OpKind.snapshot, "Snapshot",
        [.scalar (.str "t"), .scalar (.str "out.root")], []⟩ : Operation).args ∧
    (⟨OpKind.snapshot, "Snapshot",
        [.scalar (.str "t"), .scalar (.str "out.root")], []⟩ : Operation).name =
      (⟨OpKind.snapshot, "Snapshot",
        [.scalar (.str "t"), .scalar (.str "out.root")], []⟩ : Operation).name ∧
    (⟨OpKind.snapshot, "Snapshot",
        [.scalar (.str "t"), .scalar (.str "out.root")], []⟩ : Operation).kind =
      (⟨OpKind.snapshot, "Snapshot",
        [.scalar (.str "t"), .scalar (.str "out.root")], []⟩ : Operation).kind ∧
    ((⟨OpKind.snapshot, "Snapshot",
        [.scalar (.str "t"), .scalar (.str "out.root")], []⟩ : Operation).kind ≠
        OpKind.asNumpy →
      (⟨OpKind.snapshot, "Snapshot",
        [.scalar (.str "t"), .scalar (.str "out.root")], []⟩ : Operation) =
        ⟨OpKind.snapshot, "Snapshot",
          [.scalar (.str "t"), .scalar (.str "out.root")], []⟩) ∧
    ((⟨OpKind.snapshot, "Snapshot",
        [.scalar (.str "t"), .scalar (.str "out.root")], []⟩ : Operation).kind =
        OpKind.asNumpy →
      (⟨OpKind.snapshot, "Snapshot",
        [.scalar (.str "t"), .scalar (.str "out.root")], []⟩ : Operation) =
        opSetLazy ⟨OpKind.snapshot, "Snapshot",
          [.scalar (.str "t"), .scalar (.str "out.root")], []⟩) :=
  c3_materializer_frame
    ⟨OpKind.snapshot, "Snapshot",
      [.scalar (.str "t"), .scalar (.str "out.root")], []⟩ 2 _ _
    (mat_snapshot_eq _ 2 rfl rfl)

/-- **C5 counterexample**: a graph whose only non-root node carries an
operation kind with no registered handler (a generic `Filter`) translates
*successfully* through the generic rule, emitting its define-node
statement; no translation error is raised. -/
theorem c5_counterexample :
    _generate_computation_graph 7
      [(0, ⟨⟨OpKind.generic, "HEAD", [], []⟩, 0⟩),
       (1, ⟨⟨OpKind.generic, "Filter", [.scalar (.str "x>0")], []⟩, 0⟩)] =
      .ok (⟨"", [.defineNode 1 0 "Filter" "" "\"x>0\""], 0, [], []⟩,
        [(0, ⟨⟨OpKind.generic, "HEAD", [], []⟩, 0⟩),
         (1, ⟨⟨OpKind.generic, "Filter", [.scalar (.str "x>0")], []⟩, 0⟩)]) :=
  rfl

/-- **C5 (amended)**: an operation whose kind has no specifically registered
handler is dispatched to the generic rule, which succeeds and emits exactly
its single define-node statement; translation never fails on such a kind. -/
theorem c5_generic_rule_fallback (st : TransState) (op : Operation) (n p : Nat)
    (h : op.kind = OpKind.generic) :
    _handle_op st op n p = .ok { st with nodesCode := st.nodesCode ++
      [.defineNode n p op.name (_get_args_template op) (_get_args_call op.args)] } := by
  simp [_handle_op, h, _handle_op_generic]

/-- Witness for `c5_generic_rule_fallback`: the `Filter("x>0")` node. -/
theorem c5_generic_rule_fallback_witness :
    _handle_op initState ⟨OpKind.generic, "Filter", [.scalar (.str "x>0")], []⟩ 1 0 =
      .ok { initState with nodesCode := initState.nodesCode ++
        [.defineNode 1 0
          (Operation.name ⟨OpKind.generic, "Filter", [.scalar (.str "x>0")], []⟩)
          (_get_args_template ⟨OpKind.generic, "Filter", [.scalar (.str "x>0")], []⟩)
          (_get_args_call
            (Operation.args ⟨OpKind.generic, "Filter", [.scalar (.str "x>0")], []⟩))] } :=
  c5_generic_rule_fallback initState
    ⟨OpKind.generic, "Filter", [.scalar (.str "x>0")], []⟩ 1 0 rfl

/-- **C6 counterexample**: the `AsNumpy` emission rule produces *no*
define-node statement at all: for the node `2` with parent `1` it emits only
the carry-over `output_nodes.push_back` for the parent and the two
placeholder lines, and zero statements defining `node2`. -/
theorem c6_counterexample :
    _handle_op initState ⟨OpKind.asNumpy, "AsNumpy", [.tup [.str "y"]], []⟩ 2 1 =
      .ok ⟨"", [.pushOutputNode 1, .placeholders], 1, [],
        [(0, ⟨OpKind.asNumpy, "AsNumpy", [.tup [.str "y"]], []⟩)]⟩ ∧
    ([CppStmt.pushOutputNode 1, CppStmt.placeholders].countP isDefineStmt = 0) ∧
    (0 : Nat) ≠ 1 :=
  ⟨rfl, by decide, by decide⟩

/-- **C6 (amended)**: every emission rule except the `AsNumpy` one appends
exactly one define-node statement, which defines `node<N>` from the parent's
identifier `node<P>`; the `AsNumpy` rule appends no define-node statement
and instead records the *parent's* node reference into the carry-over
`output_nodes` collection (plus the two placeholder lines). -/
theorem c6_emission_shape (st : TransState) (op : Operation) (n p : Nat)
    (st' : TransState) (h : _handle_op st op n p = .ok st') :
    ∃ d : List CppStmt, st'.nodesCode = st.nodesCode ++ d ∧
      (if op.kind = OpKind.asNumpy then
        d.countP isDefineStmt = 0 ∧ d = [.pushOutputNode p, .placeholders]
       else
        d.countP isDefineStmt = 1 ∧
        d[0]? = some (.defineNode n p op.name (_get_args_template op)
          (_get_args_call op.args))) := by
  cases hk : op.kind
  case generic =>
      rw [c5_generic_rule_fallback st op n p hk] at h
      injection h with h
      subst h
      refine ⟨_, rfl, ?_⟩
      rw [if_neg (by decide)]
      exact ⟨by simp [isDefineStmt], rfl⟩
  case action =>
      simp only [_handle_op, hk] at h
      injection h with h
      subst h
      refine ⟨[.defineNode n p op.name (_get_args_template op) (_get_args_call op.args),
        .emplaceHandle n, .typeBlock n op.name], ?_, ?_⟩
      · simp [_handle_action, _handle_op_generic]
      · rw [if_neg (by decide)]
        exact ⟨by simp [isDefineStmt], rfl⟩
  case asNumpy =>
      simp only [_handle_op, hk] at h
      injection h with h
      subst h
      refine ⟨[.pushOutputNode p, .placeholders], ?_, ?_⟩
      · simp [_handle_asnumpy]
      · rw [if_pos rfl]
        exact ⟨by simp [isDefineStmt], rfl⟩
  case snapshot =>
      simp only [_handle_op, _handle_snapshot, hk] at h
      rcases h0 : (op.args[0]? : Option PyVal) with _ | a0
      · rw [h0] at h; exact absurd h (by simp)
      rcases h1 : (op.args[1]? : Option PyVal) with _ | a1
      · rw [h0, h1] at h; exact absurd h (by simp)
      rw [h0, h1] at h
      simp at h
      subst h
      refine ⟨[.defineNode n p op.name (_get_args_template op) (_get_args_call op.args),
        .emplaceHandle n, .typeBlock n op.name], ?_, ?_⟩
      · simp [_handle_action, _handle_op_generic]
      · rw [if_neg (by decide)]
        exact ⟨by simp [isDefineStmt], rfl⟩

/-- Witness for `c6_emission_shape`: the action node `Sum("x")`, node 2,
parent 1. -/
theorem c6_emission_shape_witness :
    ∃ d : List CppStmt,
      (⟨"", [.defineNode 2 1 "Sum" "" "\"x\"", .emplaceHandle 2, .typeBlock 2 "Sum"],
        1, [], []⟩ : TransState).nodesCode = initState.nodesCode ++ d ∧
      (if (⟨OpKind.action, "Sum", [.scalar (.str "x")], []⟩ : Operation).kind =
          OpKind.asNumpy then
        d.countP isDefineStmt = 0 ∧ d = [.pushOutputNode 1, .placeholders]
       else
        d.countP isDefineStmt = 1 ∧
        d[0]? = some (.defineNode 2 1
          (Operation.name ⟨OpKind.action, "Sum", [.scalar (.str "x")], []⟩)
          (_get_args_template ⟨OpKind.action, "Sum", [.scalar (.str "x")], []⟩)
          (_get_args_call
            (Operation.args ⟨OpKind.action, "Sum", [.scalar (.str "x")], []⟩)))) :=
  c6_emission_shape initState ⟨OpKind.action, "Sum", [.scalar (.str "x")], []⟩ 2 1
    ⟨"", [.defineNode 2 1 "Sum" "" "\"x\"", .emplaceHandle 2, .typeBlock 2 "Sum"],
      1, [], []⟩ rfl

/-! ## Lemmas: the compilation cache -/

theorem lookup_cons {α β : Type} [BEq α] (k c : α) (v : β) (rest : List (α × β)) :
    List.lookup c ((k, v) :: rest) = if c == k then some v else List.lookup c rest := by
  simp only [List.lookup]
  cases hb : (c == k) <;> simp

theorem lookup_append_left_some {α β : Type} [BEq α] {l : List (α × β)} {c : α}
    {id : β} (h : List.lookup c l = some id) (l2 : List (α × β)) :
    List.lookup c (l ++ l2) = some id := by
  induction l with
  | nil => exact absurd h (by simp)
  | cons p rest ih =>
      obtain ⟨k, v⟩ := p
      rw [List.cons_append, lookup_cons]
      rw [lookup_cons] at h
      cases hb : (c == k) with
      | true => simp [hb] at h ⊢; exact h
      | false => simp [hb] at h ⊢; exact ih h

theorem lookup_append_of_none {α β : Type} [BEq α] {l : List (α × β)} {c : α}
    (h : List.lookup c l = none) (l2 : List (α × β)) :
    List.lookup c (l ++ l2) = List.lookup c l2 := by
  induction l with
  | nil => simp
  | cons p rest ih =>
      obtain ⟨k, v⟩ := p
      rw [lookup_cons] at h
      cases hb : (c == k) with
      | true => simp [hb] at h
      | false =>
          rw [List.cons_append, lookup_cons]
          simp [hb] at h ⊢
          exact ih h

/-- A successful `_compile` leaves every existing cache binding in place. -/
theorem compile_preserves_lookup {compileOk : String → Bool} {code : String}
    {st : CacheState} {id : Nat} {st' : CacheState} {c : String} {cid : Nat}
    (h : _compile compileOk code st = .ok (id, st'))
    (hc : List.lookup c st.cachedWfs = some cid) :
    List.lookup c st'.cachedWfs = some cid := by
  unfold _compile at h
  cases hl : List.lookup code st.cachedWfs with
  | some i =>
      rw [hl] at h
      injection h with h
      injection h with h1 h2
      subst h2
      exact hc
  | none =>
      rw [hl] at h
      by_cases hok : compileOk code = true
      · rw [if_pos hok] at h
        injection h with h
        injection h with h1 h2
        subst h2
        exact lookup_append_left_some hc _
      · rw [if_neg hok] at h
        exact absurd h (by simp)

/-- After a successful `_compile`, the compiled code is bound to the
returned workflow id in the cache. -/
theorem compile_binds_code {compileOk : String → Bool} {code : String}
    {st : CacheState} {id : Nat} {st' : CacheState}
    (h : _compile compileOk code st = .ok (id, st')) :
    List.lookup code st'.cachedWfs = some id := by
  unfold _compile at h
  cases hl : List.lookup code st.cachedWfs with
  | some i =>
      rw [hl] at h
      injection h with h
      injection h with h1 h2
      subst h1; subst h2
      exact hl
  | none =>
      rw [hl] at h
      by_cases hok : compileOk code = true
      · rw [if_pos hok] at h
        injection h with h
        injection h with h1 h2
        subst h1; subst h2
        simp only
        rw [lookup_append_of_none hl]
        simp [List.lookup]
      · rw [if_neg hok] at h
        exact absurd h (by simp)

/-- Every surviving cache binding survives a whole sequence of cycles. -/
theorem runCompiles_preserves_lookup (compileOk : String → Bool) :
    ∀ (codes : List String) (st : CacheState) {c : String} {cid : Nat},
      List.lookup c st.cachedWfs = some cid →
      List.lookup c (runCompiles compileOk codes st).2.cachedWfs = some cid := by
  intro codes
  induction codes with
  | nil => intro st c cid hc; exact hc
  | cons code rest ih =>
      intro st c cid hc
      unfold runCompiles
      cases hcomp : _compile compileOk code st with
      | ok r =>
          obtain ⟨id, st'⟩ := r
          simp only
          exact ih st' (compile_preserves_lookup hcomp hc)
      | error e =>
          simp only
          exact ih _ hc

/-- In an all-successful sequence of cycles, every cycle returns an id, and
that id is the final cache binding of its source text. -/
theorem runCompiles_outputs (compileOk : String → Bool) :
    ∀ (codes : List String) (st : CacheState),
      (∀ c ∈ codes, compileOk c = true) →
      ∀ (i : Nat) (c : String), codes[i]? = some c →
      ∃ id, (runCompiles compileOk codes st).1[i]? = some (.ok id) ∧
        List.lookup c (runCompiles compileOk codes st).2.cachedWfs = some id := by
  intro codes
  induction codes with
  | nil => intro st _ i c hi; exact absurd hi (by simp)
  | cons code rest ih =>
      intro st hok i c hi
      have hokc : compileOk code = true := hok code (by simp)
      have hsucc : ∃ id st', _compile compileOk code st = .ok (id, st') := by
        unfold _compile
        cases hl : List.lookup code st.cachedWfs with
        | some i0 => exact ⟨i0, st, rfl⟩
        | none => rw [if_pos hokc]; exact ⟨_, _, rfl⟩
      obtain ⟨id0, st1, hcomp⟩ := hsucc
      unfold runCompiles
      rw [hcomp]
      simp only
      cases i with
      | zero =>
          simp only [List.getElem?_cons_zero] at hi
          injection hi with hi
          subst hi
          refine ⟨id0, by simp, ?_⟩
          exact runCompiles_preserves_lookup compileOk rest st1
            (compile_binds_code hcomp)
      | succ i' =>
          simp only [List.getElem?_cons_succ] at hi
          obtain ⟨id, h1, h2⟩ := ih st1 (fun c hc => hok c (by simp [hc])) i' c hi
          exact ⟨id, by simpa using h1, h2⟩

/-- Across an all-successful sequence of cycles, each distinct source text is
handed to the compiler/loader boundary at most once (and any compiled text is
bound in the cache). -/
theorem runCompiles_count (compileOk : String → Bool) :
    ∀ (codes : List String) (st : CacheState),
      (∀ c ∈ codes, compileOk c = true) →
      (∀ t, st.compileLog.count t ≤ 1 ∧
        (1 ≤ st.compileLog.count t → (List.lookup t st.cachedWfs).isSome)) →
      ∀ t, (runCompiles compileOk codes st).2.compileLog.count t ≤ 1 ∧
        (1 ≤ (runCompiles compileOk codes st).2.compileLog.count t →
          (List.lookup t (runCompiles compileOk codes st).2.cachedWfs).isSome) := by
  intro codes
  induction codes with
  | nil => intro st _ hInv t; exact hInv t
  | cons code rest ih =>
      intro st hok hInv t
      have hokc : compileOk code = true := hok code (by simp)
      unfold runCompiles
      cases hl : List.lookup code st.cachedWfs with
      | some id0 =>
          have hcomp : _compile compileOk code st = .ok (id0, st) := by
            unfold _compile
            rw [hl]
          rw [hcomp]
          exact ih st (fun c hc => hok c (by simp [hc])) hInv t
      | none =>
          have hcomp : _compile compileOk code st = .ok (st.wfIdCounter,
              { st with
                  compileLog := st.compileLog ++ [code],
                  cachedWfs := st.cachedWfs ++ [(code, st.wfIdCounter)],
                  wfIdCounter := st.wfIdCounter + 1 }) := by
            unfold _compile
            rw [hl, if_pos hokc]
          rw [hcomp]
          apply ih _ (fun c hc => hok c (by simp [hc]))
          intro u
      -- the invariant holds for the post-compile state
          have hcount0 : st.compileLog.count code = 0 := by
            rcases Nat.eq_zero_or_pos (st.compileLog.count code) with h0 | h0
            · exact h0
            · have := (hInv code).2 h0
              rw [hl] at this
              exact absurd this (by simp)
          by_cases hu : u = code
          · subst hu
            constructor
            · simp only [List.count_append, hcount0]
              simp [List.count_singleton]
            · intro _
              simp only
              rw [lookup_append_of_none hl, lookup_cons]
              simp
          · constructor
            · simp only [List.count_append]
              have : ([code] : List String).count u = 0 := by
                simp [List.count_singleton]
                exact fun hc => hu hc.symm
              rw [this]
              simpa using (hInv u).1
            · intro hc
              simp only [List.count_append] at hc
              have hsing : ([code] : List String).count u = 0 := by
                simp [List.count_singleton]
                exact fun hc => hu hc.symm
              rw [hsing] at hc
              have := (hInv u).2 (by omega)
              cases hlu : List.lookup u st.cachedWfs with
              | none => rw [hlu] at this; exact absurd this (by simp)
              | some v =>
                  simp only
                  rw [lookup_append_left_some hlu]
                  simp

/-- **C2**: over any all-successful sequence of workflow cycles in one
process, two cycles whose generated source texts are byte-identical receive
the same workflow id from `_compile`, and the compiler/loader boundary
(`CompileMacro`) is invoked at most once per source text over the process
lifetime (a cache hit returns the cached id without invoking it again). -/
theorem c2_cache_correctness (compileOk : String → Bool) (codes : List String)
    (hok : ∀ c ∈ codes, compileOk c = true) :
    (∀ (i j : Nat) (c : String), codes[i]? = some c → codes[j]? = some c →
      ∃ id, (runCompiles compileOk codes initCache).1[i]? = some (Except.ok id) ∧
        (runCompiles compileOk codes initCache).1[j]? = some (Except.ok id)) ∧
    ∀ t, (runCompiles compileOk codes initCache).2.compileLog.count t ≤ 1 := by
  constructor
  · intro i j c hi hj
    obtain ⟨id1, h1, hl1⟩ := runCompiles_outputs compileOk codes initCache hok i c hi
    obtain ⟨id2, h2, hl2⟩ := runCompiles_outputs compileOk codes initCache hok j c hj
    have heq : id1 = id2 := by
      rw [hl1] at hl2
      injection hl2
    exact ⟨id1, h1, heq ▸ h2⟩
  · intro t
    refine (runCompiles_count compileOk codes initCache hok ?_ t).1
    intro u
    exact ⟨by simp [initCache], by intro h; simp [initCache] at h⟩

/-- Witness for `c2_cache_correctness`: the same source text `"w"` compiled
in two consecutive cycles yields one id and one compiler invocation. -/
theorem c2_cache_correctness_witness :
    (∃ id, (runCompiles (fun _ => true) ["w", "w"] initCache).1[0]? =
        some (Except.ok id) ∧
      (runCompiles (fun _ => true) ["w", "w"] initCache).1[1]? =
        some (Except.ok id)) ∧
    (runCompiles (fun _ => true) ["w", "w"] initCache).2.compileLog.count "w" ≤ 1 :=
  ⟨(c2_cache_correctness (fun _ => true) ["w", "w"] (by intro c _; rfl)).1 0 1 "w"
      rfl rfl,
   (c2_cache_correctness (fun _ => true) ["w", "w"] (by intro c _; rfl)).2 "w"⟩

/-! ## Unfolding lemmas for the translation walk -/

theorem _add_node_eq (st : TransState) (r : Nat) (op : Operation) (n p : Nat) :
    _add_node st r op n p =
      match _create_lazy_op_if_needed op r with
      | .error e => .error e
      | .ok (orig, m) =>
          match _handle_op st m n p with
          | .error e => .error e
          | .ok st' => .ok (st', orig) := by
  simp only [_add_node, bind, Except.bind]
  cases _create_lazy_op_if_needed op r with
  | error e => rfl
  | ok q =>
      obtain ⟨orig, m⟩ := q
      simp only
      cases _handle_op st m n p with
      | error e => rfl
      | ok st' => rfl

theorem translateNodes_cons (r n : Nat) (node : Node) (rest : List (Nat × Node))
    (st : TransState) :
    translateNodes r ((n, node) :: rest) st =
      match _add_node st r node.operation n node.parent_id with
      | .error e => .error e
      | .ok (st', op') => consOutcome n node op' (translateNodes r rest st') := by
  simp only [translateNodes, bind, Except.bind, consOutcome]
  cases _add_node st r node.operation n node.parent_id with
  | error e => rfl
  | ok q =>
      obtain ⟨st', op'⟩ := q
      simp only
      cases translateNodes r rest st' with
      | error e => rfl
      | ok q2 => rfl

/-! ## Lemmas: the generated text does not depend on keyword options -/

theorem transView_tail {res1 res2 : Except String (TransState × List (Nat × Node))}
    (n : Nat) (node1 node2 : Node) (op1 op2 : Operation)
    (h : transView res1 = transView res2) :
    transView (consOutcome n node1 op1 res1) =
      transView (consOutcome n node2 op2 res2) := by
  cases res1 with
  | error e1 =>
      cases res2 with
      | error e2 => simpa [transView, Except.map, consOutcome] using h
      | ok q2 =>
          obtain ⟨a, b⟩ := q2
          simp [transView, Except.map] at h
  | ok q1 =>
      obtain ⟨a1, b1⟩ := q1
      cases res2 with
      | error e2 => simp [transView, Except.map] at h
      | ok q2 =>
          obtain ⟨a2, b2⟩ := q2
          simpa [transView, Except.map, consOutcome] using h

theorem translateNodes_kwargs_agnostic (r : Nat) :
    ∀ (nodes : List (Nat × Node)) (st1 st2 : TransState),
      st1.lambdas = st2.lambdas → st1.nodesCode = st2.nodesCode →
      transView (translateNodes r nodes st1) =
        transView (translateNodes r (eraseKwargs nodes) st2) := by
  intro nodes
  induction nodes with
  | nil =>
      intro st1 st2 hl hc
      simp [translateNodes, eraseKwargs, transView, Except.map, hl, hc]
  | cons x rest ih =>
      intro st1 st2 hl hc
      obtain ⟨n, node⟩ := x
      have herase : eraseKwargs ((n, node) :: rest) =
          (n, { node with operation := { node.operation with kwargs := [] } }) ::
            eraseKwargs rest := by simp [eraseKwargs]
      rw [herase, translateNodes_cons, translateNodes_cons,
        _add_node_eq, _add_node_eq]
      cases hk : node.operation.kind
      case generic =>
          rw [mat_generic hk,
            mat_generic (show Operation.kind { node.operation with kwargs := [] } =
              OpKind.generic from hk)]
          simp only [_handle_op, hk]
          exact transView_tail n node _ _ _
            (ih _ _ (by simpa [_handle_op_generic] using hl)
              (by simp [_handle_op_generic, _get_args_template, hc]))
      case action =>
          rw [mat_action hk,
            mat_action (show Operation.kind { node.operation with kwargs := [] } =
              OpKind.action from hk)]
          simp only [_handle_op, hk]
          exact transView_tail n node _ _ _
            (ih _ _ (by simpa [_handle_action, _handle_op_generic] using hl)
              (by simp [_handle_action, _handle_op_generic, _get_args_template, hc]))
      case asNumpy =>
          rw [mat_asnumpy hk,
            mat_asnumpy (show Operation.kind { node.operation with kwargs := [] } =
              OpKind.asNumpy from hk)]
          simp only [_handle_op, opSetLazy_kind, hk]
          exact transView_tail n node _ _ _
            (ih _ _ (by simpa [_handle_asnumpy] using hl)
              (by simp [_handle_asnumpy, hc]))
      case snapshot =>
          cases h1 : (node.operation.args[1]? : Option PyVal) with
          | none =>
              have hm1 : _create_lazy_op_if_needed node.operation r =
                  .error "IndexError: list index out of range" := by
                simp [_create_lazy_op_if_needed, hk, h1]
              have hm2 : _create_lazy_op_if_needed
                  { node.operation with kwargs := [] } r =
                  .error "IndexError: list index out of range" := by
                simp [_create_lazy_op_if_needed, hk, h1]
              rw [hm1, hm2]
          | some v =>
              rcases v with s | elems
              · rcases s with f | i | b
                · -- a string path: both sides materialize identically
                  have hm1 := mat_snapshot_eq node.operation r hk h1
                  have hm2 := mat_snapshot_eq { node.operation with kwargs := [] } r
                    (show Operation.kind { node.operation with kwargs := [] } =
                      OpKind.snapshot from hk) h1
                  rw [hm1, hm2]
                  simp only [_handle_op, hk, _handle_snapshot]
                  cases hA0 : ((let args1 := node.operation.args.set 1 (.scalar (.str
                      (pyPartitionBefore f ".root" ++ "_" ++ pyStrOfNat r ++ ".root")));
                    let args2 := if args1.length = 2 then
                      args1 ++ [.scalar (.str "")] else args1;
                    if args2.length = 4 then
                      args2.set 3 (.scalar (.str "lazy_options"))
                    else args2 ++ [.scalar (.str "lazy_options")])[0]? :
                      Option PyVal) with
                  | none => simp [hA0, transView, Except.map]
                  | some a0 =>
                      cases hA1 : ((let args1 := node.operation.args.set 1 (.scalar (.str
                          (pyPartitionBefore f ".root" ++ "_" ++ pyStrOfNat r ++ ".root")));
                        let args2 := if args1.length = 2 then
                          args1 ++ [.scalar (.str "")] else args1;
                        if args2.length = 4 then
                          args2.set 3 (.scalar (.str "lazy_options"))
                        else args2 ++ [.scalar (.str "lazy_options")])[1]? :
                          Option PyVal) with
                      | none => simp [hA0, hA1, transView, Except.map]
                      | some a1 =>
                          simp only [hA0, hA1]
                          exact transView_tail n node _ _ _
                            (ih _ _
                              (by simpa [_handle_action, _handle_op_generic] using hl)
                              (by simp [_handle_action, _handle_op_generic, _get_args_template, hc]))
                · have hm1 : _create_lazy_op_if_needed node.operation r =
                      .error "AttributeError: object has no attribute partition" := by
                    simp [_create_lazy_op_if_needed, hk, h1]
                  have hm2 : _create_lazy_op_if_needed
                      { node.operation with kwargs := [] } r =
                      .error "AttributeError: object has no attribute partition" := by
                    simp [_create_lazy_op_if_needed, hk, h1]
                  rw [hm1, hm2]
                · have hm1 : _create_lazy_op_if_needed node.operation r =
                      .error "AttributeError: object has no attribute partition" := by
                    simp [_create_lazy_op_if_needed, hk, h1]
                  have hm2 : _create_lazy_op_if_needed
                      { node.operation with kwargs := [] } r =
                      .error "AttributeError: object has no attribute partition" := by
                    simp [_create_lazy_op_if_needed, hk, h1]
                  rw [hm1, hm2]
              · have hm1 : _create_lazy_op_if_needed node.operation r =
                    .error "AttributeError: object has no attribute partition" := by
                  simp [_create_lazy_op_if_needed, hk, h1]
                have hm2 : _create_lazy_op_if_needed
                    { node.operation with kwargs := [] } r =
                    .error "AttributeError: object has no attribute partition" := by
                  simp [_create_lazy_op_if_needed, hk, h1]
                rw [hm1, hm2]

theorem application_code_of_view {st1 st2 : TransState}
    (hl : st1.lambdas = st2.lambdas) (hc : st1.nodesCode = st2.nodesCode) :
    application_code st1 = application_code st2 := by
  simp [application_code, _get_code, hl, hc]

/-- **C10**: two graphs whose operation descriptors differ only in their
kwargs mappings generate byte-identical C++ source text (and fail
identically): keyword options never reach the generated source, hence never
affect the artifact-cache key. -/
theorem c10_kwargs_never_reach_source (r : Nat) (g1 g2 : Graph)
    (h : eraseKwargs g1 = eraseKwargs g2) :
    (_generate_computation_graph r g1).map (fun p => application_code p.1) =
      (_generate_computation_graph r g2).map (fun p => application_code p.1) := by
  cases g1 with
  | nil =>
      cases g2 with
      | nil => rfl
      | cons y rest2 => simp [eraseKwargs] at h
  | cons x rest1 =>
      cases g2 with
      | nil => simp [eraseKwargs] at h
      | cons y rest2 =>
          have htail : eraseKwargs rest1 = eraseKwargs rest2 := by
            simp only [eraseKwargs, List.map_cons, List.cons.injEq] at h
            exact h.2
          have hview : transView (translateNodes r rest1 initState) =
              transView (translateNodes r rest2 initState) := by
            have h1 := translateNodes_kwargs_agnostic r rest1 initState initState rfl rfl
            have h2 := translateNodes_kwargs_agnostic r rest2 initState initState rfl rfl
            rw [h1, htail, ← h2]
          simp only [_generate_computation_graph, bind, Except.bind]
          cases h1 : translateNodes r rest1 initState with
          | error e =>
              cases h2 : translateNodes r rest2 initState with
              | error e2 =>
                  rw [h1, h2] at hview
                  simp only [transView, Except.map] at hview
                  simp only [Except.map]
                  injection hview with hview
                  rw [hview]
              | ok q2 =>
                  rw [h1, h2] at hview
                  simp [transView, Except.map] at hview
          | ok q =>
              obtain ⟨st, rest'⟩ := q
              cases h2 : translateNodes r rest2 initState with
              | error e2 =>
                  rw [h1, h2] at hview
                  simp [transView, Except.map] at hview
              | ok q2 =>
                  obtain ⟨stB, restB'⟩ := q2
                  rw [h1, h2] at hview
                  simp only [transView, Except.map] at hview
                  injection hview with hview
                  have hl2 : st.lambdas = stB.lambdas := congrArg Prod.fst hview
                  have hc2 : st.nodesCode = stB.nodesCode := congrArg Prod.snd hview
                  simp only [Except.map, pure, Except.pure]
                  rw [application_code_of_view hl2 hc2]

/-- Witness for `c10_kwargs_never_reach_source`: the same one-action graph
with and without an extra keyword option generates the same source text. -/
theorem c10_kwargs_never_reach_source_witness :
    (_generate_computation_graph 7
        [(0, ⟨⟨OpKind.generic, "HEAD", [], []⟩, 0⟩),
         (1, ⟨⟨OpKind.action, "Sum", [.scalar (.str "x")],
            [("opt", .scalar (.bool false))]⟩, 0⟩)]).map
      (fun p => application_code p.1) =
    (_generate_computation_graph 7
        [(0, ⟨⟨OpKind.generic, "HEAD", [], []⟩, 0⟩),
         (1, ⟨⟨OpKind.action, "Sum", [.scalar (.str "x")], []⟩, 0⟩)]).map
      (fun p => application_code p.1) :=
  c10_kwargs_never_reach_source 7
    [(0, ⟨⟨OpKind.generic, "HEAD", [], []⟩, 0⟩),
     (1, ⟨⟨OpKind.action, "Sum", [.scalar (.str "x")],
        [("opt", .scalar (.bool false))]⟩, 0⟩)]
    [(0, ⟨⟨OpKind.generic, "HEAD", [], []⟩, 0⟩),
     (1, ⟨⟨OpKind.action, "Sum", [.scalar (.str "x")], []⟩, 0⟩)]
    rfl

/-! ## The master characterization of the translation walk -/

theorem matResult_of_ok {op : Operation} {r : Nat} {orig m : Operation}
    (h : _create_lazy_op_if_needed op r = .ok (orig, m)) :
    matResult r op = m := by
  simp [matResult, h]

theorem origAfterMat_of_ok {op : Operation} {r : Nat} {orig m : Operation}
    (h : _create_lazy_op_if_needed op r = .ok (orig, m)) :
    origAfterMat r op = orig := by
  simp [origAfterMat, h]

theorem handle_action_eq (st : TransState) (op : Operation) (n p : Nat) :
    _handle_action st op n p =
      { st with
          nodesCode := st.nodesCode ++
            [.defineNode n p op.name (_get_args_template op) (_get_args_call op.args),
             .emplaceHandle n, .typeBlock n op.name],
          resPtrId := st.resPtrId + 1 } := by
  simp [_handle_action, _handle_op_generic]

theorem handle_asnumpy_eq (st : TransState) (op : Operation) (n p : Nat) :
    _handle_asnumpy st op n p =
      { st with
          pyActions := st.pyActions ++ [(st.resPtrId, op)],
          nodesCode := st.nodesCode ++ [.pushOutputNode p, .placeholders],
          resPtrId := st.resPtrId + 1 } := rfl

/-- The master characterization of the translation walk: on success, the
final instance state is the input state with the per-node statements,
result-slot count, snapshot records and Python-action records appended, and
the returned graph holds each node's post-materialization operation. -/
theorem translateNodes_char (r : Nat) :
    ∀ (nodes : List (Nat × Node)) (st st' : TransState) (g' : List (Nat × Node)),
      translateNodes r nodes st = .ok (st', g') →
      st'.lambdas = st.lambdas ∧
      st'.resPtrId = st.resPtrId + (actNodes nodes).length ∧
      st'.nodesCode = st.nodesCode ++ (nodes.map (stmtsFor r)).flatten ∧
      st'.snapshots = st.snapshots ++ (sideTables r st.resPtrId nodes).1 ∧
      st'.pyActions = st.pyActions ++ (sideTables r st.resPtrId nodes).2 ∧
      g' = nodes.map (fun x =>
        (x.1, { x.2 with operation := origAfterMat r x.2.operation })) := by
  intro nodes
  induction nodes with
  | nil =>
      intro st st' g' h
      simp only [translateNodes] at h
      injection h with h
      injection h with h1 h2
      subst h1; subst h2
      simp [actNodes, sideTables]
  | cons x rest ih =>
      intro st st' g' h
      obtain ⟨n, node⟩ := x
      rw [translateNodes_cons, _add_node_eq] at h
      cases hk : node.operation.kind
      case generic =>
          rw [mat_generic hk] at h
          simp only [_handle_op, hk] at h
          cases hrest : translateNodes r rest
              (_handle_op_generic st node.operation n node.parent_id) with
          | error e => rw [hrest] at h; exact absurd h (by simp [consOutcome])
          | ok q =>
              obtain ⟨stF, rest'⟩ := q
              rw [hrest] at h
              simp only [consOutcome] at h
              injection h with h
              injection h with h1 h2
              subst h1; subst h2
              obtain ⟨hA, hB, hC, hD, hE, hF⟩ := ih _ _ _ hrest
              refine ⟨hA, ?_, ?_, ?_, ?_, ?_⟩
              · rw [hB]
                simp [_handle_op_generic, actNodes, hk]
              · rw [hC]
                simp [_handle_op_generic, stmtsFor, hk,
                  matResult_of_ok (mat_generic hk r)]
              · rw [hD]
                simp [_handle_op_generic, sideTables, hk]
              · rw [hE]
                simp [_handle_op_generic, sideTables, hk]
              · rw [hF]
                simp [origAfterMat_of_ok (mat_generic hk r)]
      case action =>
          rw [mat_action hk] at h
          simp only [_handle_op, hk] at h
          cases hrest : translateNodes r rest
              (_handle_action st node.operation n node.parent_id) with
          | error e => rw [hrest] at h; exact absurd h (by simp [consOutcome])
          | ok q =>
              obtain ⟨stF, rest'⟩ := q
              rw [hrest] at h
              simp only [consOutcome] at h
              injection h with h
              injection h with h1 h2
              subst h1; subst h2
              obtain ⟨hA, hB, hC, hD, hE, hF⟩ := ih _ _ _ hrest
              rw [handle_action_eq] at hA hB hC hD hE
              refine ⟨hA, ?_, ?_, ?_, ?_, ?_⟩
              · rw [hB]
                simp only [actNodes, hk]
                simp [List.length_cons]
                omega
              · rw [hC]
                simp [stmtsFor, hk, matResult_of_ok (mat_action hk r)]
              · rw [hD]
                simp [sideTables, hk]
              · rw [hE]
                simp [sideTables, hk]
              · rw [hF]
                simp [origAfterMat_of_ok (mat_action hk r)]
      case asNumpy =>
          rw [mat_asnumpy hk] at h
          simp only [_handle_op, opSetLazy_kind, hk] at h
          cases hrest : translateNodes r rest
              (_handle_asnumpy st (opSetLazy node.operation) n node.parent_id) with
          | error e => rw [hrest] at h; exact absurd h (by simp [consOutcome])
          | ok q =>
              obtain ⟨stF, rest'⟩ := q
              rw [hrest] at h
              simp only [consOutcome] at h
              injection h with h
              injection h with h1 h2
              subst h1; subst h2
              obtain ⟨hA, hB, hC, hD, hE, hF⟩ := ih _ _ _ hrest
              rw [handle_asnumpy_eq] at hA hB hC hD hE
              refine ⟨hA, ?_, ?_, ?_, ?_, ?_⟩
              · rw [hB]
                simp only [actNodes, hk]
                simp [List.length_cons]
                omega
              · rw [hC]
                simp [stmtsFor, hk]
              · rw [hD]
                simp [sideTables, hk]
              · rw [hE]
                simp [sideTables, hk]
              · rw [hF]
                simp [origAfterMat_of_ok (mat_asnumpy hk r)]
      case snapshot =>
          cases hmat : _create_lazy_op_if_needed node.operation r with
          | error e => rw [hmat] at h; exact absurd h (by simp)
          | ok q =>
              obtain ⟨orig, m⟩ := q
              rw [hmat] at h
              have hmk : m.kind = OpKind.snapshot := (mat_ok_kind hmat).2.trans hk
              simp only [_handle_op, hmk, _handle_snapshot] at h
              cases hA0 : (m.args[0]? : Option PyVal) <;>
                cases hA1 : (m.args[1]? : Option PyVal) <;>
                rw [hA0, hA1] at h <;> simp only at h
              case none.none => exact absurd h (by simp [consOutcome])
              case none.some a1 => exact absurd h (by simp [consOutcome])
              case some.none a0 => exact absurd h (by simp [consOutcome])
              case some.some a0 a1 =>
                  cases hrest : translateNodes r rest
                      (_handle_action { st with snapshots :=
                        st.snapshots ++ [(st.resPtrId, a0, a1)] } m n node.parent_id) with
                  | error e => rw [hrest] at h; exact absurd h (by simp [consOutcome])
                  | ok q2 =>
                      obtain ⟨stF, rest'⟩ := q2
                      rw [hrest] at h
                      simp only [consOutcome] at h
                      injection h with h
                      injection h with hh1 hh2
                      subst hh1; subst hh2
                      obtain ⟨hA, hB, hC, hD, hE, hF⟩ := ih _ _ _ hrest
                      rw [handle_action_eq] at hA hB hC hD hE
                      refine ⟨hA, ?_, ?_, ?_, ?_, ?_⟩
                      · rw [hB]
                        simp only [actNodes, hk]
                        simp [List.length_cons]
                        omega
                      · rw [hC]
                        simp [stmtsFor, hk, matResult_of_ok hmat]
                      · rw [hD]
                        simp [sideTables, hk, matResult_of_ok hmat, hA0, hA1]
                      · rw [hE]
                        simp [sideTables, hk, matResult_of_ok hmat, hA0, hA1]
                      · rw [hF]
                        simp [origAfterMat_of_ok hmat]

/-! ## Lemmas: the vectors produced by running the generated statements -/

theorem nativeHandles_append (l1 l2 : List CppStmt) :
    nativeHandles (l1 ++ l2) = nativeHandles l1 ++ nativeHandles l2 := by
  simp [nativeHandles]

theorem nativeTypes_append (typeOf : Nat → String) (l1 l2 : List CppStmt) :
    nativeTypes typeOf (l1 ++ l2) = nativeTypes typeOf l1 ++ nativeTypes typeOf l2 := by
  simp [nativeTypes]

theorem nativeOutputs_append (l1 l2 : List CppStmt) :
    nativeOutputs (l1 ++ l2) = nativeOutputs l1 ++ nativeOutputs l2 := by
  simp [nativeOutputs]

theorem nativeHandles_flat (r : Nat) :
    ∀ nodes : List (Nat × Node),
      nativeHandles ((nodes.map (stmtsFor r)).flatten) =
        (actNodes nodes).map (fun x => rawHandleFor x) := by
  intro nodes
  induction nodes with
  | nil => rfl
  | cons x rest ih =>
      simp only [List.map_cons, List.flatten_cons, nativeHandles_append, ih]
      cases hk : x.2.operation.kind <;>
        simp [stmtsFor, hk, nativeHandles, stmtHandles, actNodes, rawHandleFor]

theorem nativeTypes_flat (typeOf : Nat → String) (r : Nat) :
    ∀ nodes : List (Nat × Node),
      nativeTypes typeOf ((nodes.map (stmtsFor r)).flatten) =
        (actNodes nodes).map (fun x => rawTypeFor typeOf x) := by
  intro nodes
  induction nodes with
  | nil => rfl
  | cons x rest ih =>
      simp only [List.map_cons, List.flatten_cons, nativeTypes_append, ih]
      cases hk : x.2.operation.kind <;>
        simp [stmtsFor, hk, nativeTypes, stmtTypes, actNodes, rawTypeFor]

theorem nativeOutputs_stmtsFor (r : Nat) (x : Nat × Node) :
    nativeOutputs (stmtsFor r x) =
      (match x.2.operation.kind with
       | OpKind.asNumpy => [x.2.parent_id]
       | _ => []) := by
  cases hk : x.2.operation.kind <;>
    simp [stmtsFor, hk, nativeOutputs, stmtOutputs]

theorem pyzip_flat (r : Nat) :
    ∀ (nodes : List (Nat × Node)) (k : Nat),
      ((sideTables r k nodes).2.zip
          (nativeOutputs ((nodes.map (stmtsFor r)).flatten))).map
        (fun u => (u.1.1, ExecResult.pyRes u.2 (opSetLazy u.1.2))) =
      pyUpdatesRef r k nodes := by
  intro nodes
  induction nodes with
  | nil => intro k; rfl
  | cons x rest ih =>
      intro k
      rw [List.map_cons, List.flatten_cons, nativeOutputs_append,
        nativeOutputs_stmtsFor]
      cases hk : x.2.operation.kind
      case generic =>
          simp only [hk, List.nil_append, sideTables, pyUpdatesRef]
          exact ih k
      case action =>
          simp only [hk, List.nil_append, sideTables, pyUpdatesRef]
          exact ih (k + 1)
      case asNumpy =>
          simp only [hk, sideTables, pyUpdatesRef]
          rw [List.singleton_append, List.zip_cons_cons, List.map_cons]
          simp only
          rw [ih (k + 1)]
      case snapshot =>
          simp only [hk, List.nil_append, sideTables, pyUpdatesRef]
          cases hA0 : ((matResult r x.2.operation).args[0]? : Option PyVal) <;>
            cases hA1 : ((matResult r x.2.operation).args[1]? : Option PyVal) <;>
            simp only [hA0, hA1] <;>
            exact ih (k + 1)

/-! ## Lemmas: slot assignment -/

theorem setSlots_cons {α : Type} (l : List α) (u : Nat × α) (ups : List (Nat × α)) :
    setSlots l (u :: ups) = setSlots (l.set u.1 u.2) ups := rfl

theorem set_append_len {α : Type} :
    ∀ (acc : List α) (b : α) (M : List α) (v : α),
      (acc ++ b :: M).set acc.length v = acc ++ v :: M := by
  intro acc
  induction acc with
  | nil => intro b M v; rfl
  | cons a acc ih => intro b M v; simp [List.set, ih]

theorem setSlots_set_comm {α : Type} (i : Nat) (v : α) :
    ∀ (ups : List (Nat × α)) (l : List α), (∀ u ∈ ups, u.1 ≠ i) →
      setSlots (l.set i v) ups = (setSlots l ups).set i v := by
  intro ups
  induction ups with
  | nil => intro l _; rfl
  | cons u ups ih =>
      intro l hne
      rw [setSlots_cons, setSlots_cons,
        List.set_comm _ _ _ (fun hc => hne u (by simp) hc.symm)]
      exact ih _ (fun w hw => hne w (by simp [hw]))

theorem pyUpdatesRef_slots (r : Nat) :
    ∀ (nodes : List (Nat × Node)) (k : Nat) (u : Nat × ExecResult),
      u ∈ pyUpdatesRef r k nodes → k ≤ u.1 := by
  intro nodes
  induction nodes with
  | nil => intro k u hu; exact absurd hu (by simp [pyUpdatesRef])
  | cons x rest ih =>
      intro k u hu
      cases hk : x.2.operation.kind
      case generic =>
          rw [pyUpdatesRef, hk] at hu
          exact ih k u hu
      case action =>
          rw [pyUpdatesRef, hk] at hu
          have := ih (k + 1) u hu
          omega
      case snapshot =>
          rw [pyUpdatesRef, hk] at hu
          have := ih (k + 1) u hu
          omega
      case asNumpy =>
          rw [pyUpdatesRef, hk] at hu
          rcases List.mem_cons.mp hu with rfl | hu'
          · simp
          · have := ih (k + 1) u hu'
            omega

/-- The whole reconciliation pass, relative to an already-settled prefix
`acc` of result slots: native handles for the action nodes are laid down in
order, then the Python-action slots and the Snapshot slots are overwritten,
yielding exactly the per-node final results. -/
theorem final_results_char (r : Nat) :
    ∀ (nodes : List (Nat × Node)) (acc : List ExecResult),
      (∀ x ∈ nodes, x.2.operation.kind = OpKind.snapshot →
        ∃ a0 a1, (matResult r x.2.operation).args[0]? = some a0 ∧
          (matResult r x.2.operation).args[1]? = some a1) →
      setSlots
        (setSlots (acc ++ (actNodes nodes).map
            (fun x => ExecResult.handle (rawHandleFor x)))
          (pyUpdatesRef r acc.length nodes))
        ((sideTables r acc.length nodes).1.map
          (fun e => (e.1, ExecResult.snap e.2.1 [e.2.2]))) =
      acc ++ (actNodes nodes).map (finalResFor r) := by
  intro nodes
  induction nodes with
  | nil => intro acc _; rfl
  | cons x rest ih =>
      intro acc hgood
      have hgood' : ∀ y ∈ rest, y.2.operation.kind = OpKind.snapshot →
          ∃ a0 a1, (matResult r y.2.operation).args[0]? = some a0 ∧
            (matResult r y.2.operation).args[1]? = some a1 :=
        fun y hy => hgood y (by simp [hy])
      have hsplit : ∀ (v : ExecResult) (M : List ExecResult),
          acc ++ v :: M = (acc ++ [v]) ++ M := by simp
      have hlen1 : (acc ++ [ExecResult.handle (rawHandleFor x)]).length =
          acc.length + 1 := by simp
      cases hk : x.2.operation.kind
      case generic =>
          simp only [actNodes, hk, pyUpdatesRef, sideTables]
          simp only [if_pos]
          exact ih acc hgood'
      case action =>
          have hfin : finalResFor r x = ExecResult.handle (rawHandleFor x) := by
            simp [rawHandleFor, finalResFor, hk]
          simp only [actNodes, hk, pyUpdatesRef, sideTables, List.map_cons]
          rw [if_neg (by simp [hk])]
          simp only [List.map_cons]
          rw [hsplit (ExecResult.handle (rawHandleFor x)),
            hsplit (finalResFor r x), hfin]
          have := ih (acc ++ [ExecResult.handle (rawHandleFor x)]) hgood'
          rw [hlen1] at this
          exact this
      case asNumpy =>
          have hfin : finalResFor r x =
              ExecResult.pyRes x.2.parent_id (opSetLazy x.2.operation) := by
            simp [finalResFor, hk]
          have hraw : rawHandleFor x = NativeHandle.empty := by
            simp [rawHandleFor, hk]
          simp only [actNodes, hk, pyUpdatesRef, sideTables, List.map_cons]
          rw [if_neg (by simp [hk])]
          simp only [List.map_cons]
          rw [setSlots_cons]
          simp only
          rw [hraw, hsplit (ExecResult.handle NativeHandle.empty)]
          rw [show ((acc ++ [ExecResult.handle NativeHandle.empty]) ++
              (actNodes rest).map (fun x => ExecResult.handle (rawHandleFor x))).set
              acc.length
              (ExecResult.pyRes x.2.parent_id (opSetLazy (opSetLazy x.2.operation)))
            = (acc ++ [ExecResult.pyRes x.2.parent_id (opSetLazy x.2.operation)]) ++
              (actNodes rest).map (fun x => ExecResult.handle (rawHandleFor x)) from by
            rw [opSetLazy_idem]
            rw [← hsplit, ← hsplit]
            exact set_append_len acc _ _ _]
          rw [hsplit (finalResFor r x), hfin]
          have := ih (acc ++ [ExecResult.pyRes x.2.parent_id (opSetLazy x.2.operation)])
            hgood'
          rw [show (acc ++ [ExecResult.pyRes x.2.parent_id
              (opSetLazy x.2.operation)]).length = acc.length + 1 from by simp] at this
          exact this
      case snapshot =>
          obtain ⟨a0, a1, hA0, hA1⟩ := hgood x (by simp) hk
          have hfin : finalResFor r x = ExecResult.snap a0 [a1] := by
            simp only [finalResFor, hk]
            rw [List.getD_eq_getElem?_getD, List.getD_eq_getElem?_getD, hA0, hA1]
            rfl
          have hraw : rawHandleFor x = NativeHandle.ofNode x.1 := by
            simp [rawHandleFor, hk]
          simp only [actNodes, hk, pyUpdatesRef, sideTables, List.map_cons]
          rw [if_neg (by simp [hk])]
          simp only [hA0, hA1, List.map_cons]
          rw [setSlots_cons]
          simp only
          rw [← setSlots_set_comm acc.length (ExecResult.snap a0 [a1])
            (pyUpdatesRef r (acc.length + 1) rest) _
            (fun u hu => by have := pyUpdatesRef_slots r rest (acc.length + 1) u hu; omega)]
          rw [hraw, hsplit (ExecResult.handle (NativeHandle.ofNode x.1))]
          rw [show ((acc ++ [ExecResult.handle (NativeHandle.ofNode x.1)]) ++
              (actNodes rest).map (fun x => ExecResult.handle (rawHandleFor x))).set
              acc.length (ExecResult.snap a0 [a1])
            = (acc ++ [ExecResult.snap a0 [a1]]) ++
              (actNodes rest).map (fun x => ExecResult.handle (rawHandleFor x)) from by
            rw [← hsplit, ← hsplit]
            exact set_append_len acc _ _ _]
          rw [hsplit (finalResFor r x), hfin]
          have := ih (acc ++ [ExecResult.snap a0 [a1]]) hgood'
          rw [show (acc ++ [ExecResult.snap a0 [a1]]).length = acc.length + 1 from by
            simp] at this
          exact this

/-- The type-slot reconciliation: stripped native type names laid down per
action node, then the Snapshot slots nulled out. -/
theorem final_types_char (typeOf : Nat → String) (r : Nat) :
    ∀ (nodes : List (Nat × Node)) (acc : List (Option String)),
      (∀ x ∈ nodes, x.2.operation.kind = OpKind.snapshot →
        ∃ a0 a1, (matResult r x.2.operation).args[0]? = some a0 ∧
          (matResult r x.2.operation).args[1]? = some a1) →
      setSlots (acc ++ (actNodes nodes).map (fun x => some (strippedOf typeOf x)))
        ((sideTables r acc.length nodes).1.map
          (fun e => (e.1, (none : Option String)))) =
      acc ++ (actNodes nodes).map (finalTypeFor typeOf) := by
  intro nodes
  induction nodes with
  | nil => intro acc _; rfl
  | cons x rest ih =>
      intro acc hgood
      have hgood' : ∀ y ∈ rest, y.2.operation.kind = OpKind.snapshot →
          ∃ a0 a1, (matResult r y.2.operation).args[0]? = some a0 ∧
            (matResult r y.2.operation).args[1]? = some a1 :=
        fun y hy => hgood y (by simp [hy])
      have hsplit : ∀ (v : Option String) (M : List (Option String)),
          acc ++ v :: M = (acc ++ [v]) ++ M := by simp
      cases hk : x.2.operation.kind
      case generic =>
          simp only [actNodes, hk, sideTables]
          simp only [if_pos]
          exact ih acc hgood'
      case action =>
          have hfin : finalTypeFor typeOf x = some (strippedOf typeOf x) := by
            simp [finalTypeFor, hk]
          simp only [actNodes, hk, sideTables, List.map_cons]
          rw [if_neg (by simp [hk])]
          simp only [List.map_cons]
          rw [hsplit (some (strippedOf typeOf x)), hsplit (finalTypeFor typeOf x), hfin]
          have := ih (acc ++ [some (strippedOf typeOf x)]) hgood'
          rw [show (acc ++ [some (strippedOf typeOf x)]).length = acc.length + 1 from by
            simp] at this
          exact this
      case asNumpy =>
          have hfin : finalTypeFor typeOf x = some (strippedOf typeOf x) := by
            simp [finalTypeFor, hk]
          simp only [actNodes, hk, sideTables, List.map_cons]
          rw [if_neg (by simp [hk])]
          simp only [List.map_cons]
          rw [hsplit (some (strippedOf typeOf x)), hsplit (finalTypeFor typeOf x), hfin]
          have := ih (acc ++ [some (strippedOf typeOf x)]) hgood'
          rw [show (acc ++ [some (strippedOf typeOf x)]).length = acc.length + 1 from by
            simp] at this
          exact this
      case snapshot =>
          obtain ⟨a0, a1, hA0, hA1⟩ := hgood x (by simp) hk
          have hfin : finalTypeFor typeOf x = none := by
            simp [finalTypeFor, hk]
          simp only [actNodes, hk, sideTables, List.map_cons]
          rw [if_neg (by simp [hk])]
          simp only [hA0, hA1, List.map_cons]
          rw [setSlots_cons]
          simp only
          rw [hsplit (some (strippedOf typeOf x))]
          rw [show ((acc ++ [some (strippedOf typeOf x)]) ++
              (actNodes rest).map (fun x => some (strippedOf typeOf x))).set
              acc.length (none : Option String)
            = (acc ++ [(none : Option String)]) ++
              (actNodes rest).map (fun x => some (strippedOf typeOf x)) from by
            rw [← hsplit, ← hsplit]
            exact set_append_len acc _ _ _]
          rw [hsplit (finalTypeFor typeOf x), hfin]
          have := ih (acc ++ [(none : Option String)]) hgood'
          rw [show (acc ++ [(none : Option String)]).length = acc.length + 1 from by
            simp] at this
          exact this

/-- A successful `mapM get_result_type` strips every type name. -/
theorem mapM_strip_ok :
    ∀ {l out : List String}, l.mapM get_result_type = .ok out →
      out = l.map stripOrDefault := by
  intro l
  induction l with
  | nil =>
      intro out h
      rw [List.mapM_nil] at h
      injection h with h
      rw [← h]
      rfl
  | cons a l ih =>
      intro out h
      rw [List.mapM_cons] at h
      simp only [bind, Except.bind] at h
      cases ha : get_result_type a with
      | error e => rw [ha] at h; exact absurd h (by simp)
      | ok b =>
          rw [ha] at h
          simp only at h
          cases hl : l.mapM get_result_type with
          | error e => rw [hl] at h; exact absurd h (by simp)
          | ok bs =>
              rw [hl] at h
              simp only [pure, Except.pure] at h
              injection h with h
              rw [← h, List.map_cons, ih hl]
              have : stripOrDefault a = b := by simp [stripOrDefault, ha]
              rw [this]

/-- Decomposition of one successful translation step. -/
theorem translateNodes_step_ok (r n : Nat) (node : Node) (rest : List (Nat × Node))
    (st st' : TransState) (g' : List (Nat × Node))
    (h : translateNodes r ((n, node) :: rest) st = .ok (st', g')) :
    ∃ orig m st1 g1,
      _create_lazy_op_if_needed node.operation r = .ok (orig, m) ∧
      _handle_op st m n node.parent_id = .ok st1 ∧
      translateNodes r rest st1 = .ok (st', g1) := by
  rw [translateNodes_cons, _add_node_eq] at h
  cases hmat : _create_lazy_op_if_needed node.operation r with
  | error e => rw [hmat] at h; exact absurd h (by simp)
  | ok q =>
      obtain ⟨orig, m⟩ := q
      rw [hmat] at h
      simp only at h
      cases hop : _handle_op st m n node.parent_id with
      | error e => rw [hop] at h; exact absurd h (by simp)
      | ok st1 =>
          rw [hop] at h
          simp only at h
          cases hrest : translateNodes r rest st1 with
          | error e => rw [hrest] at h; exact absurd h (by simp [consOutcome])
          | ok q2 =>
              obtain ⟨stF, rest'⟩ := q2
              rw [hrest] at h
              simp only [consOutcome] at h
              injection h with h
              injection h with h1 h2
              subst h1
              exact ⟨orig, m, st1, rest', rfl, hop, hrest⟩

/-- A snapshot handler only succeeds when the (materialized) operation still
has its first two positional arguments. -/
theorem handle_op_snapshot_args {st st1 : TransState} {m : Operation} {n p : Nat}
    (hmk : m.kind = OpKind.snapshot) (h : _handle_op st m n p = .ok st1) :
    ∃ a0 a1, m.args[0]? = some a0 ∧ m.args[1]? = some a1 := by
  simp only [_handle_op, hmk, _handle_snapshot] at h
  cases hA0 : (m.args[0]? : Option PyVal) <;>
    cases hA1 : (m.args[1]? : Option PyVal) <;> rw [hA0, hA1] at h
  case none.none => exact absurd h (by simp)
  case none.some => exact absurd h (by simp)
  case some.none => exact absurd h (by simp)
  case some.some a0 a1 => exact ⟨a0, a1, rfl, rfl⟩

/-- In a graph that translates successfully, every snapshot node's
materialized operation kept its treename and path arguments. -/
theorem translateNodes_snapshot_good (r : Nat) :
    ∀ (nodes : List (Nat × Node)) (st st' : TransState) (g' : List (Nat × Node)),
      translateNodes r nodes st = .ok (st', g') →
      ∀ x ∈ nodes, x.2.operation.kind = OpKind.snapshot →
        ∃ a0 a1, (matResult r x.2.operation).args[0]? = some a0 ∧
          (matResult r x.2.operation).args[1]? = some a1 := by
  intro nodes
  induction nodes with
  | nil => intro st st' g' h x hx; exact absurd hx (by simp)
  | cons y rest ih =>
      intro st st' g' h x hx hkx
      obtain ⟨n, node⟩ := y
      obtain ⟨orig, m, st1, g1, hmat, hop, hrest⟩ :=
        translateNodes_step_ok r n node rest st st' g' h
      rcases List.mem_cons.mp hx with rfl | hx'
      · have hmk : m.kind = OpKind.snapshot := (mat_ok_kind hmat).2.trans hkx
        obtain ⟨a0, a1, hA0, hA1⟩ := handle_op_snapshot_args hmk hop
        rw [matResult_of_ok hmat]
        exact ⟨a0, a1, hA0, hA1⟩
      · exact ih st1 st' g1 hrest x hx' hkx

/-- Full characterization of a successful execution cycle: the returned
result list and type list are exactly the per-action-node final values, in
graph insertion order. -/
theorem executeModel_char (typeOf : Nat → String) (r : Nat) (head : Nat × Node)
    (rest : List (Nat × Node)) (results : List ExecResult)
    (resTypes : List (Option String))
    (hexec : executeModel typeOf r (head :: rest) = .ok (results, resTypes)) :
    results = (actNodes rest).map (finalResFor r) ∧
    resTypes = (actNodes rest).map (finalTypeFor typeOf) ∧
    ∀ st g', _generate_computation_graph r (head :: rest) = .ok (st, g') →
      st.resPtrId = (actNodes rest).length ∧
      st.snapshots = (sideTables r 0 rest).1 ∧
      st.pyActions = (sideTables r 0 rest).2 := by
  simp only [executeModel, bind, Except.bind] at hexec
  cases htr : _generate_computation_graph r (head :: rest) with
  | error e => rw [htr] at hexec; exact absurd hexec (by simp)
  | ok q =>
      obtain ⟨st, g'⟩ := q
      rw [htr] at hexec
      simp only at hexec
      have htr' := htr
      simp only [_generate_computation_graph, bind, Except.bind] at htr'
      cases htr2 : translateNodes r rest initState with
      | error e => rw [htr2] at htr'; exact absurd htr' (by simp)
      | ok q2 =>
          obtain ⟨st0, rest'⟩ := q2
          rw [htr2] at htr'
          simp only [pure, Except.pure] at htr'
          injection htr' with htr'
          injection htr' with ht1 ht2
          subst ht1
          have hgood := translateNodes_snapshot_good r rest initState st0 rest' htr2
          obtain ⟨hA, hB, hC, hD, hE, hF⟩ := translateNodes_char r rest initState
            st0 rest' htr2
          simp only [initState, List.nil_append] at hB hC hD hE
          -- run the compiled function
          simp only [_run_function, bind, Except.bind] at hexec
          cases hmm : (nativeTypes typeOf st0.nodesCode).mapM get_result_type with
          | error e => rw [hmm] at hexec; exact absurd hexec (by simp)
          | ok stripped =>
              rw [hmm] at hexec
              simp only [pure, Except.pure] at hexec
              injection hexec with hexec
              injection hexec with hres htypes
              rw [hC] at hmm
              have hstripped : stripped =
                  (actNodes rest).map (fun x => strippedOf typeOf x) := by
                rw [mapM_strip_ok hmm, nativeTypes_flat, List.map_map]
                rfl
              constructor
              · rw [← hres]
                rw [hC, nativeHandles_flat, List.map_map, hE, hD]
                have hzip := pyzip_flat r rest 0
                rw [hzip]
                have := final_results_char r rest [] (by
                  intro x hx hkx
                  exact hgood x hx hkx)
                simpa using this
              constructor
              · rw [← htypes]
                rw [hstripped, List.map_map, hD]
                have := final_types_char typeOf r rest [] (by
                  intro x hx hkx
                  exact hgood x hx hkx)
                simpa using this
              · intro st1 g1 htr1
                injection htr1 with htr1
                injection htr1 with hq1 hq2
                rw [← hq1]
                refine ⟨by rw [hB]; omega, by rw [hD], by rw [hE]⟩

/-- Every `_snapshots` record corresponds to the snapshot node occupying the
action-node position its slot names. -/
theorem sideTables_snap_mem (r : Nat) :
    ∀ (nodes : List (Nat × Node)) (k i : Nat) (t p : PyVal),
      (i, t, p) ∈ (sideTables r k nodes).1 →
      ∃ x, (actNodes nodes)[i - k]? = some x ∧ k ≤ i ∧
        x.2.operation.kind = OpKind.snapshot ∧
        (matResult r x.2.operation).args[0]? = some t ∧
        (matResult r x.2.operation).args[1]? = some p := by
  intro nodes
  induction nodes with
  | nil => intro k i t p hmem; exact absurd hmem (by simp [sideTables])
  | cons x rest ih =>
      intro k i t p hmem
      cases hk : x.2.operation.kind
      case generic =>
          simp only [sideTables, hk] at hmem
          obtain ⟨y, hy, hki, hkind, hA0, hA1⟩ := ih k i t p hmem
          refine ⟨y, ?_, hki, hkind, hA0, hA1⟩
          simp only [actNodes, hk]
          simp only [if_pos]
          exact hy
      case action =>
          simp only [sideTables, hk] at hmem
          obtain ⟨y, hy, hki, hkind, hA0, hA1⟩ := ih (k + 1) i t p hmem
          refine ⟨y, ?_, by omega, hkind, hA0, hA1⟩
          simp only [actNodes, hk]
          rw [if_neg (by simp)]
          have hidx : i - k = (i - (k + 1)) + 1 := by omega
          rw [hidx, List.getElem?_cons_succ]
          exact hy
      case asNumpy =>
          simp only [sideTables, hk] at hmem
          obtain ⟨y, hy, hki, hkind, hA0, hA1⟩ := ih (k + 1) i t p hmem
          refine ⟨y, ?_, by omega, hkind, hA0, hA1⟩
          simp only [actNodes, hk]
          rw [if_neg (by simp)]
          have hidx : i - k = (i - (k + 1)) + 1 := by omega
          rw [hidx, List.getElem?_cons_succ]
          exact hy
      case snapshot =>
          simp only [sideTables, hk] at hmem
          cases hA0 : ((matResult r x.2.operation).args[0]? : Option PyVal) <;>
            cases hA1 : ((matResult r x.2.operation).args[1]? : Option PyVal) <;>
            rw [hA0, hA1] at hmem <;> simp only at hmem
          case none.none =>
              obtain ⟨y, hy, hki, hkind, hB0, hB1⟩ := ih (k + 1) i t p hmem
              refine ⟨y, ?_, by omega, hkind, hB0, hB1⟩
              simp only [actNodes, hk]
              rw [if_neg (by simp)]
              have hidx : i - k = (i - (k + 1)) + 1 := by omega
              rw [hidx, List.getElem?_cons_succ]
              exact hy
          case none.some a1 =>
              obtain ⟨y, hy, hki, hkind, hB0, hB1⟩ := ih (k + 1) i t p hmem
              refine ⟨y, ?_, by omega, hkind, hB0, hB1⟩
              simp only [actNodes, hk]
              rw [if_neg (by simp)]
              have hidx : i - k = (i - (k + 1)) + 1 := by omega
              rw [hidx, List.getElem?_cons_succ]
              exact hy
          case some.none a0 =>
              obtain ⟨y, hy, hki, hkind, hB0, hB1⟩ := ih (k + 1) i t p hmem
              refine ⟨y, ?_, by omega, hkind, hB0, hB1⟩
              simp only [actNodes, hk]
              rw [if_neg (by simp)]
              have hidx : i - k = (i - (k + 1)) + 1 := by omega
              rw [hidx, List.getElem?_cons_succ]
              exact hy
          case some.some a0 a1 =>
              rcases List.mem_cons.mp hmem with heq | hmem'
              · injection heq with hi hrest2
                injection hrest2 with ht hp
                subst hi; subst ht; subst hp
                refine ⟨x, ?_, Nat.le_refl _, hk, hA0, hA1⟩
                simp only [actNodes, hk]
                rw [if_neg (by simp)]
                rw [Nat.sub_self, List.getElem?_cons_zero]
              · obtain ⟨y, hy, hki, hkind, hB0, hB1⟩ := ih (k + 1) i t p hmem'
                refine ⟨y, ?_, by omega, hkind, hB0, hB1⟩
                simp only [actNodes, hk]
                rw [if_neg (by simp)]
                have hidx : i - k = (i - (k + 1)) + 1 := by omega
                rw [hidx, List.getElem?_cons_succ]
                exact hy

/-- **C1**: for every graph, `execute()` returns a results list and a
result-types list of equal length — the number of Action (including
Snapshot) plus AsNumpy nodes among the non-root nodes — slot `i` holds the
final result and type of the `i`-th such node in insertion order, and the
`_res_ptr_id` counter of the translation ends exactly at that count (one
increment per such node). -/
theorem c1_slot_alignment (typeOf : Nat → String) (r : Nat) (head : Nat × Node)
    (rest : List (Nat × Node)) (results : List ExecResult)
    (resTypes : List (Option String))
    (hexec : executeModel typeOf r (head :: rest) = .ok (results, resTypes)) :
    results.length = (actNodes rest).length ∧
    resTypes.length = (actNodes rest).length ∧
    (∀ (i : Nat) (x : Nat × Node), (actNodes rest)[i]? = some x →
      results[i]? = some (finalResFor r x) ∧
      resTypes[i]? = some (finalTypeFor typeOf x)) ∧
    (∀ st g', _generate_computation_graph r (head :: rest) = .ok (st, g') →
      st.resPtrId = (actNodes rest).length) := by
  obtain ⟨hres, htypes, hst⟩ :=
    executeModel_char typeOf r head rest results resTypes hexec
  refine ⟨by rw [hres]; simp, by rw [htypes]; simp, ?_,
    fun st g' h => (hst st g' h).1⟩
  intro i x hx
  rw [hres, htypes, List.getElem?_map, List.getElem?_map, hx]
  exact ⟨rfl, rfl⟩

/-- Witness for `c1_slot_alignment`: the graph `[Filter("x>0"), Sum("x")]`
with partition id 7 yields one result slot holding the native handle of
node 2 and its stripped type. -/
theorem c1_slot_alignment_witness :
    ([ExecResult.handle (NativeHandle.ofNode 2)] : List ExecResult).length =
      (actNodes [(1, ⟨⟨OpKind.generic, "Filter", [.scalar (.str "x>0")], []⟩, 0⟩),
        (2, ⟨⟨OpKind.action, "Sum", [.scalar (.str "x")], []⟩, 1⟩)]).length ∧
    ([some "double"] : List (Option String)).length =
      (actNodes [(1, ⟨⟨OpKind.generic, "Filter", [.scalar (.str "x>0")], []⟩, 0⟩),
        (2, ⟨⟨OpKind.action, "Sum", [.scalar (.str "x")], []⟩, 1⟩)]).length ∧
    (∀ (i : Nat) (x : Nat × Node),
      (actNodes [(1, ⟨⟨OpKind.generic, "Filter", [.scalar (.str "x>0")], []⟩, 0⟩),
        (2, ⟨⟨OpKind.action, "Sum", [.scalar (.str "x")], []⟩, 1⟩)])[i]? = some x →
      ([ExecResult.handle (NativeHandle.ofNode 2)] : List ExecResult)[i]? =
        some (finalResFor 7 x) ∧
      ([some "double"] : List (Option String))[i]? =
        some (finalTypeFor (fun _ => "ROOT::RDF::RResultPtr<double>") x)) ∧
    (∀ st g', _generate_computation_graph 7
        [(0, ⟨⟨OpKind.generic, "HEAD", [], []⟩, 0⟩),
         (1, ⟨⟨OpKind.generic, "Filter", [.scalar (.str "x>0")], []⟩, 0⟩),
         (2, ⟨⟨OpKind.action, "Sum", [.scalar (.str "x")], []⟩, 1⟩)] = .ok (st, g') →
      st.resPtrId =
        (actNodes [(1, ⟨⟨OpKind.generic, "Filter", [.scalar (.str "x>0")], []⟩, 0⟩),
          (2, ⟨⟨OpKind.action, "Sum", [.scalar (.str "x")], []⟩, 1⟩)]).length) :=
  c1_slot_alignment (fun _ => "ROOT::RDF::RResultPtr<double>") 7
    (0, ⟨⟨OpKind.generic, "HEAD", [], []⟩, 0⟩)
    [(1, ⟨⟨OpKind.generic, "Filter", [.scalar (.str "x>0")], []⟩, 0⟩),
     (2, ⟨⟨OpKind.action, "Sum", [.scalar (.str "x")], []⟩, 1⟩)]
    [ExecResult.handle (NativeHandle.ofNode 2)] [some "double"] (by decide)

/-- **C9**: after `execute()`, every Snapshot recorded at slot `i` leaves
`results[i]` equal to `SnapshotResult(treename, [rewritten path])` and
`res_types[i]` equal to `None`. -/
theorem c9_snapshot_result_rewrite (typeOf : Nat → String) (r : Nat)
    (head : Nat × Node) (rest : List (Nat × Node)) (results : List ExecResult)
    (resTypes : List (Option String)) (st : TransState) (g' : Graph)
    (i : Nat) (t p : PyVal)
    (hexec : executeModel typeOf r (head :: rest) = .ok (results, resTypes))
    (htr : _generate_computation_graph r (head :: rest) = .ok (st, g'))
    (hmem : (i, t, p) ∈ st.snapshots) :
    results[i]? = some (.snap t [p]) ∧ resTypes[i]? = some none := by
  obtain ⟨hres, htypes, hst⟩ :=
    executeModel_char typeOf r head rest results resTypes hexec
  obtain ⟨_, hsnap, _⟩ := hst st g' htr
  rw [hsnap] at hmem
  obtain ⟨x, hx, _, hkind, hA0, hA1⟩ := sideTables_snap_mem r rest 0 i t p hmem
  rw [Nat.sub_zero] at hx
  rw [hres, htypes, List.getElem?_map, List.getElem?_map, hx]
  constructor
  · simp only [Option.map_some']
    have : finalResFor r x = ExecResult.snap t [p] := by
      simp only [finalResFor, hkind]
      rw [List.getD_eq_getElem?_getD, List.getD_eq_getElem?_getD, hA0, hA1]
      rfl
    rw [this]
  · simp only [Option.map_some']
    simp [finalTypeFor, hkind]

/-- Witness for `c9_snapshot_result_rewrite`: the one-node graph
`[Snapshot("t","out.root")]` with partition id 2 — `results[0]` is the
`SnapshotResult` for treename `"t"` and path `"out_2.root"`, and
`result_types[0]` is `None`. -/
theorem c9_snapshot_result_rewrite_witness :
    ([ExecResult.snap (.scalar (.str "t")) [.scalar (.str "out_2.root")]] :
        List ExecResult)[0]? =
      some (.snap (.scalar (.str "t")) [.scalar (.str "out_2.root")]) ∧
    ([none] : List (Option String))[0]? = some none :=
  c9_snapshot_result_rewrite (fun _ => "ROOT::RDF::RResultPtr<ULong64_t>") 2
    (0, ⟨⟨OpKind.generic, "HEAD", [], []⟩, 0⟩)
    [(1, ⟨⟨OpKind.snapshot, "Snapshot",
        [.scalar (.str "t"), .scalar (.str "out.root")], []⟩, 0⟩)]
    [ExecResult.snap (.scalar (.str "t")) [.scalar (.str "out_2.root")]]
    [none]
    ⟨"", [.defineNode 1 0 "Snapshot" ""
        "\"t\", \"out_2.root\", \"\", lazy_options",
      .emplaceHandle 1, .typeBlock 1 "Snapshot"], 1,
      [(0, .scalar (.str "t"), .scalar (.str "out_2.root"))], []⟩
    [(0, ⟨⟨OpKind.generic, "HEAD", [], []⟩, 0⟩),
     (1, ⟨⟨OpKind.snapshot, "Snapshot",
        [.scalar (.str "t"), .scalar (.str "out.root")], []⟩, 0⟩)]
    0 (.scalar (.str "t")) (.scalar (.str "out_2.root"))
    (by decide) (by decide) (by decide)

end CppWorkflow
